import Mathlib

/-!
Verification development for the `justgiulio-photos` metadata pipeline
(`scripts/generate-metadata.js`).

The script walks a photo directory, reconciles the current file listing
against the previous `metadata.json` snapshot (keyed by relative path,
change-detected by content hash), selectively re-invokes the expensive
probes (dimension probing, EXIF extraction, thumbnail rendering), and
emits a new snapshot with per-category rollups.

The shallow embedding below mirrors the script:
* the probe services (`sharp` metadata, EXIF parsing, thumbnail encoding)
  are modelled as a deterministic environment of oracles keyed by the
  source path, where `none` models the probe throwing (the script catches
  every probe error and substitutes a documented default);
* the thumbnail directory is modelled as the list of thumbnail paths
  existing on disk; a successful render inserts its output path;
* every probe invocation is recorded as an `Event`, and every successful
  thumbnail write as a `(destination, source)` pair, so that claims about
  "which probes ran" and "who wrote which file" are stated over these logs;
* JavaScript `undefined`/`null` record fields become `Option`; the prior
  snapshot (untrusted parsed JSON) is a `CachedRecord` whose derived
  fields may each be absent.
-/

namespace PhotosMeta

/-- Current file listing entry produced by the tree walk (`scanDirectory`):
relative slash-separated path, base name, byte size, mtime (modelled as a
numeric timestamp) and the md5 content hash. -/
structure FileEntry where
  path : String
  name : String
  size : Nat
  modified : Nat
  hash : String
deriving DecidableEq, Repr

/-- Pixel dimensions and format, as returned by `getImageDimensions`. -/
structure Dimensions where
  width : Nat
  height : Nat
  format : String
deriving DecidableEq, Repr

/-- Sentinel returned by `getImageDimensions` when `sharp` fails. -/
def dimFailure : Dimensions := { width := 0, height := 0, format := "unknown" }

/-- Normalized EXIF record, as assembled by `extractExifData`; every field
may independently be absent (JavaScript `null`). -/
structure ExifData where
  camera : Option String
  aperture : Option String
  iso : Option Nat
  shutterSpeed : Option String
  focalLength : Option String
  gps : Option (Int × Int)
  dateTaken : Option String
deriving DecidableEq, Repr

/-- The fully-absent EXIF record: what `extractExifData` returns when the
extraction throws (the script returns the empty object). -/
def emptyExif : ExifData :=
  { camera := none, aperture := none, iso := none, shutterSpeed := none,
    focalLength := none, gps := none, dateTaken := none }

/-- Thumbnail metadata returned by a successful `generateThumbnail`. -/
structure ThumbInfo where
  width : Nat
  height : Nat
  size : Nat
deriving DecidableEq, Repr

/-- One photo record of the emitted snapshot (`processedPhotos` element). -/
@[ext]
structure AssetRecord where
  id : String
  path : String
  name : String
  category : String
  size : Nat
  modified : Nat
  hash : String
  dimensions : Dimensions
  exif : ExifData
  thumbnail : Option ThumbInfo
  url : String
  thumbnailUrl : String
deriving DecidableEq, Repr

/-- A photo record as read back from the prior `metadata.json`. Parsed JSON
is untrusted, so the derived fields may each be absent (`undefined`/`null`
in the script, which tests them with `?.` plus `||`). -/
structure CachedRecord where
  path : String
  hash : String
  dimensions : Option Dimensions
  exif : Option ExifData
  thumbnail : Option ThumbInfo
deriving DecidableEq, Repr

/-- Per-category rollup (`categoriesMap` values). -/
structure CategoryStats where
  name : String
  photoCount : Nat
  totalSize : Nat
deriving DecidableEq, Repr

/-- The emitted snapshot, minus the `generated` wall-clock timestamp
(which is the one field the spec excludes from all comparisons). -/
structure Snapshot where
  totalPhotos : Nat
  totalSize : Nat
  categories : List CategoryStats
  photos : List AssetRecord
deriving DecidableEq, Repr

/-- Deterministic environment of probe services keyed by the source's
relative path. `none` models the probe throwing; the script catches every
such error and substitutes its documented default. -/
structure Env where
  dims : String → Option Dimensions
  exif : String → Option ExifData
  thumb : String → Option ThumbInfo

/-- Log entry: one probe invocation. -/
inductive Event where
  | dimProbe (src : String)
  | exifProbe (src : String)
  | thumbRender (src : String) (dst : String)
deriving DecidableEq, Repr

/-- Splits a character list at every slash, mirroring JavaScript
`String.prototype.split("/")` (which returns `[""]` on the empty string). -/
def splitSlash : List Char → List (List Char)
  | [] => [[]]
  | c :: rest =>
    if c = '/' then [] :: splitSlash rest
    else
      match splitSlash rest with
      | s :: ss => (c :: s) :: ss
      | [] => [[c]]

/-- Category of a photo: `pathParts.length > 1 ? pathParts[0] : "uncategorized"`
where `pathParts = photo.path.split("/")`. -/
def categoryOf (p : String) : String :=
  let parts := splitSlash p.data
  if parts.length > 1 then String.mk (parts.headD []) else "uncategorized"

/-- Thumbnail relative path: `photo.path.replace(/\.[^.]+$/, ".jpg")` —
the final dot-extension (a dot followed by at least one non-dot character
at the end) is replaced by `.jpg`; a path without such a suffix is kept. -/
def thumbRelOf (p : String) : String :=
  let r := p.data.reverse
  let suffix := r.takeWhile (fun c => c ≠ '.')
  match r.drop suffix.length with
  | '.' :: stemRev =>
    if suffix.isEmpty then p
    else String.mk (stemRev.reverse ++ ".jpg".data)
  | _ => p

/-- Identifier: `photo.path.replace(/[^a-zA-Z0-9]/g, "_")`. -/
def makeId (p : String) : String :=
  String.mk (p.data.map (fun c =>
    if ('a' ≤ c && c ≤ 'z') || ('A' ≤ c && c ≤ 'Z') || ('0' ≤ c && c ≤ '9')
    then c else '_'))

/-- Base URL used for the `url` and `thumbnailUrl` fields. -/
def RAW_BASE : String :=
  "https://raw.githubusercontent.com/Remeic/justgiulio-photos/main"

/-- Lookup in the prior-snapshot map: `new Map(prev.map(p => [p.path, p]))`
keeps the last record for a duplicated path, so we search the reversed list. -/
def mapGet (cache : List CachedRecord) (p : String) : Option CachedRecord :=
  cache.reverse.find? (fun c => c.path == p)

/-- Change detection: `!existingPhoto || existingPhoto.hash !== photo.hash`.
An absent prior record (or an absent `hash` field compared against the
always-present current hash) yields `true`. -/
def isNewOrModified (cache : List CachedRecord) (photo : FileEntry) : Bool :=
  match mapGet cache photo.path with
  | none => true
  | some existing => existing.hash != photo.hash

/-- Dimensions assigned to the record: probed fresh when the entry changed,
else reused from the prior record when present (`existingPhoto?.dimensions`
is an object, hence truthy, whenever present), else probed fresh. -/
def dimsValue (env : Env) (cache : List CachedRecord) (photo : FileEntry) : Dimensions :=
  if isNewOrModified cache photo then (env.dims photo.path).getD dimFailure
  else
    match (mapGet cache photo.path).bind (fun c => c.dimensions) with
    | some d => d
    | none => (env.dims photo.path).getD dimFailure

/-- Whether the dimension probe runs for this entry. -/
def dimsProbed (cache : List CachedRecord) (photo : FileEntry) : Bool :=
  isNewOrModified cache photo ||
    ((mapGet cache photo.path).bind (fun c => c.dimensions)).isNone

/-- EXIF assigned to the record: probed fresh when the entry changed, else
reused from the prior record when present (a present-but-empty EXIF object
is truthy in JavaScript, so it is reused), else probed fresh. -/
def exifValue (env : Env) (cache : List CachedRecord) (photo : FileEntry) : ExifData :=
  if isNewOrModified cache photo then (env.exif photo.path).getD emptyExif
  else
    match (mapGet cache photo.path).bind (fun c => c.exif) with
    | some x => x
    | none => (env.exif photo.path).getD emptyExif

/-- Whether the EXIF extraction runs for this entry. -/
def exifProbed (cache : List CachedRecord) (photo : FileEntry) : Bool :=
  isNewOrModified cache photo ||
    ((mapGet cache photo.path).bind (fun c => c.exif)).isNone

/-- Thumbnail policy: render when the entry changed or the thumbnail file
is absent on disk. -/
def needThumb (cache : List CachedRecord) (fs : List String) (photo : FileEntry) : Bool :=
  isNewOrModified cache photo || !(fs.contains (thumbRelOf photo.path))

/-- Thumbnail assigned to the record: the render result when rendering is
needed (`null`, i.e. `none`, when the render fails), else the prior
record's thumbnail carried over (`existingPhoto?.thumbnail || null`). -/
def thumbValue (env : Env) (cache : List CachedRecord) (fs : List String)
    (photo : FileEntry) : Option ThumbInfo :=
  if needThumb cache fs photo then env.thumb photo.path
  else (mapGet cache photo.path).bind (fun c => c.thumbnail)

/-- Thumbnail directory contents after processing this entry: a successful
render writes its output file; a failed render writes nothing. -/
def fsAfterOne (env : Env) (cache : List CachedRecord) (fs : List String)
    (photo : FileEntry) : List String :=
  if needThumb cache fs photo then
    match env.thumb photo.path with
    | some _ => List.insert (thumbRelOf photo.path) fs
    | none => fs
  else fs

/-- Probe invocations performed while processing this entry, in program
order (dimension probe, EXIF extraction, thumbnail render). -/
def eventsOfOne (cache : List CachedRecord) (fs : List String)
    (photo : FileEntry) : List Event :=
  (if dimsProbed cache photo then [Event.dimProbe photo.path] else []) ++
  (if exifProbed cache photo then [Event.exifProbe photo.path] else []) ++
  (if needThumb cache fs photo then
    [Event.thumbRender photo.path (thumbRelOf photo.path)] else [])

/-- Successful thumbnail writes performed while processing this entry. -/
def writesOfOne (env : Env) (cache : List CachedRecord) (fs : List String)
    (photo : FileEntry) : List (String × String) :=
  if needThumb cache fs photo then
    match env.thumb photo.path with
    | some _ => [(thumbRelOf photo.path, photo.path)]
    | none => []
  else []

/-- Output of processing one photo of the loop body. -/
structure StepResult where
  record : AssetRecord
  fs : List String
  events : List Event
  writes : List (String × String)
deriving Repr

/-- One iteration of the `for (const photo of allPhotos)` loop of
`generateMetadata`: classify the entry by content hash, reuse or recompute
dimensions/EXIF, regenerate the thumbnail when the entry changed or its
thumbnail file is missing, and assemble the record. `fs` is the set of
thumbnail files currently on disk. -/
def processOne (env : Env) (cache : List CachedRecord) (fs : List String)
    (photo : FileEntry) : StepResult :=
  { record :=
      { id := makeId photo.path
        path := photo.path
        name := photo.name
        category := categoryOf photo.path
        size := photo.size
        modified := photo.modified
        hash := photo.hash
        dimensions := dimsValue env cache photo
        exif := exifValue env cache photo
        thumbnail := thumbValue env cache fs photo
        url := RAW_BASE ++ "/photos/" ++ photo.path
        thumbnailUrl := RAW_BASE ++ "/thumbnails/" ++ thumbRelOf photo.path }
    fs := fsAfterOne env cache fs photo
    events := eventsOfOne cache fs photo
    writes := writesOfOne env cache fs photo }

/-- Accumulated output of the processing loop. -/
structure ProcResult where
  photos : List AssetRecord
  fs : List String
  events : List Event
  writes : List (String × String)
deriving Repr

/-- The whole `for (const photo of allPhotos)` loop, threading the
thumbnail directory state and collecting records, probe events and writes. -/
def processList (env : Env) (cache : List CachedRecord) (fs : List String) :
    List FileEntry → ProcResult
  | [] => { photos := [], fs := fs, events := [], writes := [] }
  | e :: es =>
    let s := processOne env cache fs e
    let r := processList env cache s.fs es
    { photos := s.record :: r.photos
      fs := r.fs
      events := s.events ++ r.events
      writes := s.writes ++ r.writes }

/-- Aggregation key of a record: `p.category || "uncategorized"` (the
empty string is the only falsy string). -/
def effCat (p : AssetRecord) : String :=
  if p.category == "" then "uncategorized" else p.category

/-- One step of the category aggregation loop over `processedPhotos`
(`p.category || "uncategorized"` keyed object, insertion ordered). -/
def addToCats (m : List CategoryStats) (p : AssetRecord) : List CategoryStats :=
  if m.any (fun s => s.name == effCat p) then
    m.map (fun s =>
      if s.name == effCat p then
        { s with photoCount := s.photoCount + 1, totalSize := s.totalSize + p.size }
      else s)
  else m ++ [{ name := effCat p, photoCount := 1, totalSize := p.size }]

/-- Categories recomputed from the final photo list, sorted by descending
`photoCount` (stable, as JavaScript `Array.prototype.sort` is). -/
def computeCategories (photos : List AssetRecord) : List CategoryStats :=
  (photos.foldl addToCats []).mergeSort (fun a b => decide (b.photoCount ≤ a.photoCount))

/-- `processedPhotos.sort((a, b) => new Date(b.modified) - new Date(a.modified))`:
stable sort by descending modification time. -/
def sortPhotos (photos : List AssetRecord) : List AssetRecord :=
  photos.mergeSort (fun a b => decide (b.modified ≤ a.modified))

/-- Full run result: the snapshot plus the observable side effects. -/
structure RunResult where
  snapshot : Snapshot
  fs : List String
  events : List Event
  writes : List (String × String)
deriving Repr

/-- The `generateMetadata` pipeline after the tree walk: on an empty
listing an empty snapshot is emitted; otherwise every entry is processed
against the prior snapshot, photos are sorted newest-first, and categories
and totals are recomputed from the final photo list. -/
def generateMetadata (env : Env) (priorPhotos : List CachedRecord)
    (fs0 : List String) (allPhotos : List FileEntry) : RunResult :=
  if allPhotos.isEmpty then
    { snapshot := { totalPhotos := 0, totalSize := 0, categories := [], photos := [] }
      fs := fs0, events := [], writes := [] }
  else
    let pr := processList env priorPhotos fs0 allPhotos
    let sorted := sortPhotos pr.photos
    { snapshot :=
        { totalPhotos := sorted.length
          totalSize := (sorted.map (fun p => p.size)).sum
          categories := computeCategories sorted
          photos := sorted }
      fs := pr.fs
      events := pr.events
      writes := pr.writes }

/-- Possible states of the prior `metadata.json` on disk, as seen by
`loadExistingMetadata`: missing file, unreadable/corrupt content
(`JSON.parse` throws — caught), or parsed content whose `photos` field may
be absent (`existing.photos || []`). -/
inductive SnapshotFile where
  | missing
  | corrupt
  | parsed (photos : Option (List CachedRecord))

/-- `loadExistingMetadata`: every failure path degrades to the empty prior
list; the function is total (the script catches the parse error). -/
def loadExistingMetadata : SnapshotFile → List CachedRecord
  | .missing => []
  | .corrupt => []
  | .parsed none => []
  | .parsed (some ps) => ps

/-- Reinterpret an emitted record as a prior-snapshot record for the next
run (every derived field of an emitted record is present in the JSON). -/
def cachedOfRecord (r : AssetRecord) : CachedRecord :=
  { path := r.path, hash := r.hash, dimensions := some r.dimensions,
    exif := some r.exif, thumbnail := r.thumbnail }

/-- Content of a thumbnail file after a run: the source of the last
successful write to that destination, if any. -/
def lastWriter (writes : List (String × String)) (dst : String) : Option String :=
  (writes.reverse.find? (fun w => w.1 == dst)).map (fun w => w.2)

/-! ### Basic lemmas about the step functions -/

/-- Membership form of `List.contains` for strings. -/
theorem contains_iff_mem (l : List String) (a : String) :
    l.contains a = true ↔ a ∈ l := by
  simp [List.contains, List.elem_iff]

/-- An unchanged verdict can only come from a successful lookup whose
record carries the current content hash. -/
theorem unchanged_exists {cache : List CachedRecord} {e : FileEntry}
    (h : isNewOrModified cache e = false) :
    ∃ c, mapGet cache e.path = some c ∧ c.hash = e.hash := by
  unfold isNewOrModified at h
  cases hm : mapGet cache e.path with
  | none => rw [hm] at h; simp at h
  | some c =>
    rw [hm] at h
    refine ⟨c, rfl, ?_⟩
    simpa using h

/-- With no prior snapshot, every entry is classified as new. -/
theorem changed_of_empty_cache (e : FileEntry) :
    isNewOrModified [] e = true := by
  unfold isNewOrModified mapGet
  rfl

/-- An equal-hash cache hit yields the unchanged verdict. -/
theorem unchanged_of_hit {cache : List CachedRecord} {e : FileEntry} {c : CachedRecord}
    (hm : mapGet cache e.path = some c) (hh : c.hash = e.hash) :
    isNewOrModified cache e = false := by
  unfold isNewOrModified
  rw [hm]
  simp [hh]

/-- The thumbnail directory only grows during one step. -/
theorem subset_fsAfterOne (env : Env) (cache : List CachedRecord)
    (fs : List String) (e : FileEntry) : fs ⊆ fsAfterOne env cache fs e := by
  unfold fsAfterOne
  split
  · split
    · exact List.subset_insert _ _
    · exact fun _ h => h
  · exact fun _ h => h

/-- The thumbnail directory only grows during the loop. -/
theorem subset_fs_processList (env : Env) (cache : List CachedRecord) :
    ∀ (entries : List FileEntry) (fs : List String),
      fs ⊆ (processList env cache fs entries).fs := by
  intro entries
  induction entries with
  | nil => intro fs; exact fun _ h => h
  | cons e es ih =>
    intro fs
    exact (subset_fsAfterOne env cache fs e).trans (ih _)

/-- The dimension probe event fires exactly when `dimsProbed` holds. -/
theorem mem_dimProbe_eventsOfOne (cache : List CachedRecord) (fs : List String)
    (e : FileEntry) :
    Event.dimProbe e.path ∈ eventsOfOne cache fs e ↔ dimsProbed cache e = true := by
  unfold eventsOfOne
  cases hd : dimsProbed cache e <;> cases he : exifProbed cache e <;>
    cases ht : needThumb cache fs e <;> simp

/-- The EXIF extraction event fires exactly when `exifProbed` holds. -/
theorem mem_exifProbe_eventsOfOne (cache : List CachedRecord) (fs : List String)
    (e : FileEntry) :
    Event.exifProbe e.path ∈ eventsOfOne cache fs e ↔ exifProbed cache e = true := by
  unfold eventsOfOne
  cases hd : dimsProbed cache e <;> cases he : exifProbed cache e <;>
    cases ht : needThumb cache fs e <;> simp

/-- The thumbnail render event fires exactly when `needThumb` holds. -/
theorem mem_thumbRender_eventsOfOne (cache : List CachedRecord) (fs : List String)
    (e : FileEntry) :
    Event.thumbRender e.path (thumbRelOf e.path) ∈ eventsOfOne cache fs e ↔
      needThumb cache fs e = true := by
  unfold eventsOfOne
  cases hd : dimsProbed cache e <;> cases he : exifProbed cache e <;>
    cases ht : needThumb cache fs e <;> simp

/-- The loop emits one record per current entry. -/
theorem length_processList_photos (env : Env) (cache : List CachedRecord) :
    ∀ (entries : List FileEntry) (fs : List String),
      (processList env cache fs entries).photos.length = entries.length := by
  intro entries
  induction entries with
  | nil => intro fs; rfl
  | cons e es ih => intro fs; simp [processList, ih]

/-- Records are emitted path-aligned with the current entries. -/
theorem map_path_processList (env : Env) (cache : List CachedRecord) :
    ∀ (entries : List FileEntry) (fs : List String),
      (processList env cache fs entries).photos.map (fun r => r.path) =
        entries.map (fun e => e.path) := by
  intro entries
  induction entries with
  | nil => intro fs; rfl
  | cons e es ih => intro fs; simp [processList, processOne, ih]

/-- Splitting the loop across a list append. -/
theorem processList_append (env : Env) (cache : List CachedRecord) :
    ∀ (l₁ l₂ : List FileEntry) (fs : List String),
      processList env cache fs (l₁ ++ l₂) =
        { photos := (processList env cache fs l₁).photos ++
            (processList env cache (processList env cache fs l₁).fs l₂).photos
          fs := (processList env cache (processList env cache fs l₁).fs l₂).fs
          events := (processList env cache fs l₁).events ++
            (processList env cache (processList env cache fs l₁).fs l₂).events
          writes := (processList env cache fs l₁).writes ++
            (processList env cache (processList env cache fs l₁).fs l₂).writes } := by
  intro l₁
  induction l₁ with
  | nil => intro l₂ fs; simp [processList]
  | cons e es ih => intro l₂ fs; simp [processList, ih]

/-- A changed entry always fires all three probes, wherever it sits in
the entry list. -/
theorem all_probes_of_changed_mem (env : Env) (cache : List CachedRecord) :
    ∀ (entries : List FileEntry) (fs : List String) (e : FileEntry),
      e ∈ entries → isNewOrModified cache e = true →
      Event.dimProbe e.path ∈ (processList env cache fs entries).events ∧
      Event.exifProbe e.path ∈ (processList env cache fs entries).events ∧
      Event.thumbRender e.path (thumbRelOf e.path) ∈
        (processList env cache fs entries).events := by
  intro entries
  induction entries with
  | nil => intro fs e h; exact absurd h (List.not_mem_nil e)
  | cons a as ih =>
    intro fs e h hch
    rcases List.mem_cons.mp h with rfl | hmem
    · have hd : dimsProbed cache e = true := by unfold dimsProbed; rw [hch]; rfl
      have hx : exifProbed cache e = true := by unfold exifProbed; rw [hch]; rfl
      have ht : needThumb cache fs e = true := by unfold needThumb; rw [hch]; rfl
      refine ⟨?_, ?_, ?_⟩ <;> simp only [processList, List.mem_append] <;> left
      · exact (mem_dimProbe_eventsOfOne cache fs e).mpr hd
      · exact (mem_exifProbe_eventsOfOne cache fs e).mpr hx
      · exact (mem_thumbRender_eventsOfOne cache fs e).mpr ht
    · have := ih (processOne env cache fs a).fs e hmem hch
      refine ⟨?_, ?_, ?_⟩ <;> simp only [processList, List.mem_append] <;> right
      · exact this.1
      · exact this.2.1
      · exact this.2.2

/-! ### Path splitting lemmas -/

/-- The split of a character list is never empty. -/
theorem splitSlash_ne_nil (cs : List Char) : splitSlash cs ≠ [] := by
  induction cs with
  | nil => simp [splitSlash]
  | cons c rest ih =>
    unfold splitSlash
    split
    · simp
    · cases h : splitSlash rest with
      | nil => exact absurd h ih
      | cons s ss => simp [h]

/-- A path splits into more than one segment exactly when it contains a
slash. -/
theorem splitSlash_length_gt_one_iff (cs : List Char) :
    (splitSlash cs).length > 1 ↔ '/' ∈ cs := by
  induction cs with
  | nil => simp [splitSlash]
  | cons c rest ih =>
    unfold splitSlash
    split
    · rename_i hc
      subst hc
      have := splitSlash_ne_nil rest
      constructor
      · intro _; exact List.mem_cons_self _ _
      · intro _
        have : 0 < (splitSlash rest).length := List.length_pos.mpr this
        simpa using Nat.succ_lt_succ this
    · rename_i hc
      cases h : splitSlash rest with
      | nil => exact absurd h (splitSlash_ne_nil rest)
      | cons s ss =>
        rw [h] at ih
        simp only [List.length_cons] at ih ⊢
        rw [List.mem_cons]
        constructor
        · intro hl; exact Or.inr (ih.mp hl)
        · intro hor
          rcases hor with heq | hm
          · exact absurd heq.symm hc
          · exact ih.mpr hm

/-- The first segment of the split is the longest slash-free prefix. -/
theorem splitSlash_headD (cs : List Char) :
    (splitSlash cs).headD [] = cs.takeWhile (fun c => c ≠ '/') := by
  induction cs with
  | nil => simp [splitSlash]
  | cons c rest ih =>
    unfold splitSlash
    split
    · rename_i hc
      subst hc
      simp [List.takeWhile]
    · rename_i hc
      cases h : splitSlash rest with
      | nil => exact absurd h (splitSlash_ne_nil rest)
      | cons s ss =>
        rw [h] at ih
        simp only [List.headD_cons] at ih
        simp [List.takeWhile, hc, ih]

/-! ### Quiet-run lemmas: unchanged entries with present thumbnails -/

/-- The thumbnail-render events among a list of probe events. -/
def renderEvents (evs : List Event) : List Event :=
  evs.filter (fun ev =>
    match ev with
    | Event.thumbRender _ _ => true
    | _ => false)

/-- Filtering render events distributes over append. -/
theorem renderEvents_append (l₁ l₂ : List Event) :
    renderEvents (l₁ ++ l₂) = renderEvents l₁ ++ renderEvents l₂ := by
  simp [renderEvents]

/-- Unfolding equation for the loop on a cons cell. -/
theorem processList_cons (env : Env) (cache : List CachedRecord) (fs : List String)
    (e : FileEntry) (es : List FileEntry) :
    processList env cache fs (e :: es) =
      { photos := (processOne env cache fs e).record ::
          (processList env cache (processOne env cache fs e).fs es).photos
        fs := (processList env cache (processOne env cache fs e).fs es).fs
        events := (processOne env cache fs e).events ++
          (processList env cache (processOne env cache fs e).fs es).events
        writes := (processOne env cache fs e).writes ++
          (processList env cache (processOne env cache fs e).fs es).writes } := rfl

/-- Processing an unchanged entry whose thumbnail file is on disk emits no
render, writes nothing, leaves the thumbnail directory untouched, and
carries the cached thumbnail into the record. -/
theorem quiet_step (env : Env) (cache : List CachedRecord) (fs : List String)
    (e : FileEntry) (c : CachedRecord)
    (hm : mapGet cache e.path = some c) (hh : c.hash = e.hash)
    (ht : thumbRelOf e.path ∈ fs) :
    needThumb cache fs e = false ∧
    (processOne env cache fs e).record.thumbnail = c.thumbnail ∧
    (processOne env cache fs e).fs = fs ∧
    (processOne env cache fs e).writes = [] ∧
    renderEvents (processOne env cache fs e).events = [] := by
  have hch : isNewOrModified cache e = false := unchanged_of_hit hm hh
  have hcont : fs.contains (thumbRelOf e.path) = true :=
    (contains_iff_mem fs (thumbRelOf e.path)).mpr ht
  have hnt : needThumb cache fs e = false := by
    unfold needThumb
    rw [hch, hcont]
    rfl
  refine ⟨hnt, ?_, ?_, ?_, ?_⟩
  · show thumbValue env cache fs e = c.thumbnail
    unfold thumbValue
    rw [hnt, hm]
    rfl
  · show fsAfterOne env cache fs e = fs
    unfold fsAfterOne
    rw [hnt]
    rfl
  · show writesOfOne env cache fs e = []
    unfold writesOfOne
    rw [hnt]
    rfl
  · show renderEvents (eventsOfOne cache fs e) = []
    unfold eventsOfOne
    rw [hnt]
    cases dimsProbed cache e <;> cases exifProbed cache e <;> rfl

/-- A run over entries that are all unchanged with their thumbnail files
on disk renders nothing, writes nothing, leaves the directory untouched,
and carries every cached thumbnail forward. -/
theorem quiet_list (env : Env) (cache : List CachedRecord) :
    ∀ (entries : List FileEntry) (fs : List String),
      (∀ e ∈ entries, ∃ c, mapGet cache e.path = some c ∧ c.hash = e.hash ∧
        thumbRelOf e.path ∈ fs) →
      (processList env cache fs entries).fs = fs ∧
      renderEvents (processList env cache fs entries).events = [] ∧
      (processList env cache fs entries).writes = [] ∧
      List.Forall₂ (fun e r => ∀ c, mapGet cache e.path = some c →
          r.thumbnail = c.thumbnail)
        entries (processList env cache fs entries).photos := by
  intro entries
  induction entries with
  | nil =>
    intro fs _
    exact ⟨rfl, rfl, rfl, List.Forall₂.nil⟩
  | cons e es ih =>
    intro fs hq
    obtain ⟨c, hm, hh, ht⟩ := hq e (List.mem_cons_self e es)
    obtain ⟨_, hthumb, hfs, hw, hev⟩ := quiet_step env cache fs e c hm hh ht
    have hrest := ih (processOne env cache fs e).fs (by
      intro e' he'
      obtain ⟨c', hm', hh', ht'⟩ := hq e' (List.mem_cons_of_mem e he')
      exact ⟨c', hm', hh', by rw [hfs]; exact ht'⟩)
    rw [hfs] at hrest
    refine ⟨?_, ?_, ?_, ?_⟩
    · rw [processList_cons]
      show (processList env cache (processOne env cache fs e).fs es).fs = fs
      rw [hfs]
      exact hrest.1
    · rw [processList_cons]
      show renderEvents ((processOne env cache fs e).events ++
        (processList env cache (processOne env cache fs e).fs es).events) = []
      rw [renderEvents_append, hev, hfs, hrest.2.1]
      rfl
    · rw [processList_cons]
      show (processOne env cache fs e).writes ++
        (processList env cache (processOne env cache fs e).fs es).writes = []
      rw [hw, hfs, hrest.2.2.1]
      rfl
    · rw [processList_cons]
      refine List.Forall₂.cons ?_ ?_
      · intro c' hm'
        rw [hm] at hm'
        cases hm'
        exact hthumb
      · show List.Forall₂ _ es (processList env cache (processOne env cache fs e).fs es).photos
        rw [hfs]
        exact hrest.2.2.2

/-! ### Claim C4 -/

/-- C4: the thumbnail is (re)generated iff the entry changed or its
thumbnail file is absent on disk at processing time, otherwise the prior
record's thumbnail metadata is reused verbatim; and in the self-healing
scenario — all entries unchanged, every thumbnail file on disk except the
target's — the run regenerates exactly the target's thumbnail, writes at
most that one file, and carries every other entry's cached thumbnail
forward untouched. -/
theorem thumbnail_policy :
    (∀ (env : Env) (cache : List CachedRecord) (fs : List String) (e : FileEntry),
      (Event.thumbRender e.path (thumbRelOf e.path) ∈ (processOne env cache fs e).events ↔
        (isNewOrModified cache e = true ∨ thumbRelOf e.path ∉ fs)) ∧
      (isNewOrModified cache e = false → thumbRelOf e.path ∈ fs →
        (processOne env cache fs e).record.thumbnail =
          (mapGet cache e.path).bind (fun c => c.thumbnail))) ∧
    (∀ (env : Env) (cache : List CachedRecord) (fs : List String)
      (pre : List FileEntry) (tgt : FileEntry) (post : List FileEntry),
      (∀ e ∈ pre ++ tgt :: post, ∃ c, mapGet cache e.path = some c ∧ c.hash = e.hash) →
      (∀ e ∈ pre ++ post, thumbRelOf e.path ∈ fs) →
      thumbRelOf tgt.path ∉ fs →
      renderEvents (processList env cache fs (pre ++ tgt :: post)).events =
        [Event.thumbRender tgt.path (thumbRelOf tgt.path)] ∧
      (processList env cache fs (pre ++ tgt :: post)).writes ⊆
        [(thumbRelOf tgt.path, tgt.path)] ∧
      ((processList env cache fs (pre ++ tgt :: post)).fs = fs ∨
        (processList env cache fs (pre ++ tgt :: post)).fs =
          List.insert (thumbRelOf tgt.path) fs) ∧
      ∃ prePhotos tgtRec postPhotos,
        (processList env cache fs (pre ++ tgt :: post)).photos =
          prePhotos ++ tgtRec :: postPhotos ∧
        tgtRec.path = tgt.path ∧
        tgtRec.thumbnail = env.thumb tgt.path ∧
        List.Forall₂ (fun e r => ∀ c, mapGet cache e.path = some c →
          r.thumbnail = c.thumbnail) pre prePhotos ∧
        List.Forall₂ (fun e r => ∀ c, mapGet cache e.path = some c →
          r.thumbnail = c.thumbnail) post postPhotos) := by
  constructor
  · intro env cache fs e
    constructor
    · rw [show (processOne env cache fs e).events = eventsOfOne cache fs e from rfl,
        mem_thumbRender_eventsOfOne]
      unfold needThumb
      rw [Bool.or_eq_true, Bool.not_eq_true']
      rw [← Bool.not_eq_true (fs.contains (thumbRelOf e.path)), contains_iff_mem]
    · intro hch ht
      have hcont : fs.contains (thumbRelOf e.path) = true :=
        (contains_iff_mem fs (thumbRelOf e.path)).mpr ht
      have hnt : needThumb cache fs e = false := by
        unfold needThumb
        rw [hch, hcont]
        rfl
      show thumbValue env cache fs e = _
      unfold thumbValue
      rw [hnt]
      rfl
  · intro env cache fs pre tgt post hcache hdisk htgt
    -- process the quiet prefix
    have hpre := quiet_list env cache pre fs (by
      intro e he
      obtain ⟨c, hm, hh⟩ := hcache e (List.mem_append_left _ he)
      exact ⟨c, hm, hh, hdisk e (List.mem_append_left _ he)⟩)
    obtain ⟨hpre_fs, hpre_ev, hpre_w, hpre_ph⟩ := hpre
    -- the target step
    obtain ⟨ctgt, hmt, hht⟩ := hcache tgt (List.mem_append_right _ (List.mem_cons_self _ _))
    have hcht : isNewOrModified cache tgt = false := unchanged_of_hit hmt hht
    have hcontt : fs.contains (thumbRelOf tgt.path) = false := by
      rw [← Bool.not_eq_true, contains_iff_mem]
      exact htgt
    have hntt : needThumb cache fs tgt = true := by
      unfold needThumb
      rw [hcht, hcontt]
      rfl
    have htv : (processOne env cache fs tgt).record.thumbnail = env.thumb tgt.path := by
      show thumbValue env cache fs tgt = _
      unfold thumbValue
      rw [hntt]
      rfl
    have htev : renderEvents (processOne env cache fs tgt).events =
        [Event.thumbRender tgt.path (thumbRelOf tgt.path)] := by
      show renderEvents (eventsOfOne cache fs tgt) = _
      unfold eventsOfOne
      rw [hntt]
      cases dimsProbed cache tgt <;> cases exifProbed cache tgt <;> rfl
    have htw : (processOne env cache fs tgt).writes ⊆ [(thumbRelOf tgt.path, tgt.path)] := by
      show writesOfOne env cache fs tgt ⊆ _
      unfold writesOfOne
      rw [if_pos hntt]
      cases env.thumb tgt.path with
      | none => exact List.nil_subset _
      | some t => exact fun x hx => hx
    have htfs : (processOne env cache fs tgt).fs = fs ∨
        (processOne env cache fs tgt).fs = List.insert (thumbRelOf tgt.path) fs := by
      show (fsAfterOne env cache fs tgt = fs ∨
        fsAfterOne env cache fs tgt = List.insert (thumbRelOf tgt.path) fs)
      unfold fsAfterOne
      rw [if_pos hntt]
      cases env.thumb tgt.path with
      | none => exact Or.inl rfl
      | some t => exact Or.inr rfl
    -- the quiet suffix, over the possibly-grown directory
    have hdisk_post : ∀ e ∈ post, thumbRelOf e.path ∈ (processOne env cache fs tgt).fs := by
      intro e he
      exact subset_fsAfterOne env cache fs tgt (hdisk e (List.mem_append_right _ he))
    have hpost := quiet_list env cache post (processOne env cache fs tgt).fs (by
      intro e he
      obtain ⟨c, hm, hh⟩ := hcache e (List.mem_append_right _ (List.mem_cons_of_mem _ he))
      exact ⟨c, hm, hh, hdisk_post e he⟩)
    obtain ⟨hpost_fs, hpost_ev, hpost_w, hpost_ph⟩ := hpost
    -- assemble across the append
    refine ⟨?_, ?_, ?_, ?_⟩
    · simp only [processList_append, processList_cons, hpre_fs]
      rw [renderEvents_append, renderEvents_append, hpre_ev, htev, hpost_ev]
      rfl
    · simp only [processList_append, processList_cons, hpre_fs]
      rw [hpre_w, hpost_w, List.nil_append, List.append_nil]
      exact htw
    · simp only [processList_append, processList_cons, hpre_fs]
      rw [hpost_fs]
      exact htfs
    · simp only [processList_append, processList_cons, hpre_fs]
      exact ⟨(processList env cache fs pre).photos, (processOne env cache fs tgt).record,
        (processList env cache (processOne env cache fs tgt).fs post).photos, rfl, rfl,
        htv, hpre_ph, hpost_ph⟩

/-! ### Concrete fixtures used by witnesses and counterexamples -/

/-- A concrete thumbnail metadata value. -/
def thumbA : ThumbInfo := { width := 600, height := 400, size := 1000 }

/-- A concrete non-empty EXIF record (distinct from `emptyExif`). -/
def exifCamera : ExifData := { emptyExif with camera := some "Canon" }

/-- A probe environment where every probe succeeds with fixed values. -/
def envConst : Env :=
  { dims := fun _ => some { width := 800, height := 600, format := "jpeg" }
    exif := fun _ => some exifCamera
    thumb := fun _ => some thumbA }

/-- Prior record whose derived fields are all absent (e.g. a hand-edited
or schema-predating snapshot) but whose hash matches `entryAX`. -/
def cacheMissingFields : List CachedRecord :=
  [{ path := "a/x.jpg", hash := "h1", dimensions := none, exif := none,
     thumbnail := some thumbA }]

/-- Prior record carrying the empty-placeholder derived values a failed
probe run would have persisted, with hash matching `entryAX`. -/
def placeholderRecord : CachedRecord :=
  { path := "a/x.jpg", hash := "h1", dimensions := some dimFailure,
    exif := some emptyExif, thumbnail := some thumbA }

/-- Prior snapshot consisting of the placeholder record. -/
def cachePlaceholders : List CachedRecord := [placeholderRecord]

/-- Prior record with every derived field present and hash matching
`entryAX`. -/
def cacheFull : List CachedRecord :=
  [{ path := "a/x.jpg", hash := "h1", dimensions := some { width := 800, height := 600, format := "jpeg" },
     exif := some exifCamera, thumbnail := some thumbA }]

/-- A concrete current entry living in category `a`. -/
def entryAX : FileEntry :=
  { path := "a/x.jpg", name := "x.jpg", size := 10, modified := 100, hash := "h1" }

/-! ### Claim C7 -/

/-- C7: for every current entry, the emitted record's category is the
first slash-separated segment of its relative path when the path has more
than one segment, and the sentinel `uncategorized` when the path is a
single segment. -/
theorem category_first_segment (env : Env) (cache : List CachedRecord)
    (fs : List String) (e : FileEntry) :
    (processOne env cache fs e).record.category =
      if '/' ∈ e.path.data then
        String.mk (e.path.data.takeWhile (fun c => c ≠ '/'))
      else "uncategorized" := by
  show categoryOf e.path = _
  unfold categoryOf
  by_cases h : '/' ∈ e.path.data
  · rw [if_pos ((splitSlash_length_gt_one_iff _).mpr h), if_pos h, splitSlash_headD]
  · rw [if_neg (fun hl => h ((splitSlash_length_gt_one_iff _).mp hl)), if_neg h]

/-! ### Claim C10 -/

/-- C10: an unchanged verdict implies the prior-snapshot lookup succeeded
with a record carrying the current content hash, so the unchanged branch's
access to the cached record's thumbnail field is well-defined: the record's
thumbnail is the render result when one is needed and exactly the cached
record's thumbnail otherwise. -/
theorem unchanged_lookup_safe (env : Env) (cache : List CachedRecord)
    (fs : List String) (e : FileEntry)
    (h : isNewOrModified cache e = false) :
    ∃ c, mapGet cache e.path = some c ∧ c.hash = e.hash ∧
      (processOne env cache fs e).record.thumbnail =
        (if needThumb cache fs e then env.thumb e.path else c.thumbnail) := by
  obtain ⟨c, hm, hh⟩ := unchanged_exists h
  refine ⟨c, hm, hh, ?_⟩
  show thumbValue env cache fs e = _
  unfold thumbValue
  rw [hm]
  rfl

/-- Witness for C10 at a concrete unchanged entry. -/
theorem unchanged_lookup_safe_witness :
    ∃ c, mapGet cacheFull entryAX.path = some c ∧ c.hash = entryAX.hash ∧
      (processOne envConst cacheFull [] entryAX).record.thumbnail =
        (if needThumb cacheFull [] entryAX then envConst.thumb entryAX.path
         else c.thumbnail) :=
  unchanged_lookup_safe envConst cacheFull [] entryAX (by decide)

/-! ### Claim C6 -/

/-- C6: a corrupt or unreadable prior snapshot is handled exactly like a
missing one (the loader totally degrades to the empty prior list, never
propagating the parse failure), and in that case every current item is
processed as new: all three probes run for every entry. -/
theorem corrupt_snapshot_as_new (env : Env) (fs : List String)
    (entries : List FileEntry) :
    generateMetadata env (loadExistingMetadata SnapshotFile.corrupt) fs entries =
      generateMetadata env (loadExistingMetadata SnapshotFile.missing) fs entries ∧
    ∀ e ∈ entries,
      Event.dimProbe e.path ∈
        (generateMetadata env (loadExistingMetadata SnapshotFile.corrupt) fs entries).events ∧
      Event.exifProbe e.path ∈
        (generateMetadata env (loadExistingMetadata SnapshotFile.corrupt) fs entries).events ∧
      Event.thumbRender e.path (thumbRelOf e.path) ∈
        (generateMetadata env (loadExistingMetadata SnapshotFile.corrupt) fs entries).events := by
  refine ⟨rfl, ?_⟩
  intro e he
  cases entries with
  | nil => exact absurd he (List.not_mem_nil e)
  | cons a as =>
    show _ ∈ (generateMetadata env [] fs (a :: as)).events ∧ _
    unfold generateMetadata
    simp only [List.isEmpty_cons, if_neg Bool.false_ne_true]
    exact all_probes_of_changed_mem env [] (a :: as) fs e he (changed_of_empty_cache e)

/-- Witness for C6 at a concrete one-entry listing. -/
theorem corrupt_snapshot_as_new_witness :
    Event.dimProbe entryAX.path ∈
      (generateMetadata envConst (loadExistingMetadata SnapshotFile.corrupt) [] [entryAX]).events ∧
    Event.exifProbe entryAX.path ∈
      (generateMetadata envConst (loadExistingMetadata SnapshotFile.corrupt) [] [entryAX]).events ∧
    Event.thumbRender entryAX.path (thumbRelOf entryAX.path) ∈
      (generateMetadata envConst (loadExistingMetadata SnapshotFile.corrupt) [] [entryAX]).events :=
  (corrupt_snapshot_as_new envConst [] [entryAX]).2 entryAX (by simp)

/-! ### Claim C1 -/

/-- C1 (counterexample): the claim "the probes run if and only if the
entry is new or its hash changed" is false: on an unchanged entry whose
prior record lacks the dimensions and EXIF fields, both probes run. -/
theorem probe_iff_changed_counterexample :
    isNewOrModified cacheMissingFields entryAX = false ∧
    Event.dimProbe entryAX.path ∈
      (processOne envConst cacheMissingFields [] entryAX).events ∧
    Event.exifProbe entryAX.path ∈
      (processOne envConst cacheMissingFields [] entryAX).events := by
  decide

/-- C1 (amended): the dimension probe (resp. EXIF extraction) runs iff the
entry is new-or-modified — no prior record for its path, or a differing
content hash — or the prior record's corresponding field is absent; and
the entry's size and modification time never influence which probes run. -/
theorem probe_invocation_policy (env : Env) (cache : List CachedRecord)
    (fs : List String) (e : FileEntry) :
    (Event.dimProbe e.path ∈ (processOne env cache fs e).events ↔
      (isNewOrModified cache e = true ∨
        ((mapGet cache e.path).bind (fun c => c.dimensions)).isNone = true)) ∧
    (Event.exifProbe e.path ∈ (processOne env cache fs e).events ↔
      (isNewOrModified cache e = true ∨
        ((mapGet cache e.path).bind (fun c => c.exif)).isNone = true)) ∧
    (∀ s m : Nat,
      (processOne env cache fs { e with size := s, modified := m }).events =
        (processOne env cache fs e).events) := by
  refine ⟨?_, ?_, fun s m => rfl⟩
  · rw [show (processOne env cache fs e).events = eventsOfOne cache fs e from rfl,
      mem_dimProbe_eventsOfOne]
    unfold dimsProbed
    simp
  · rw [show (processOne env cache fs e).events = eventsOfOne cache fs e from rfl,
      mem_exifProbe_eventsOfOne]
    unfold exifProbed
    simp

/-! ### Claim C3 -/

/-- C3 (counterexample): the claim "an unchanged entry whose prior record
holds an empty placeholder (e.g. the fully-empty EXIF record of an earlier
failed extraction) gets that field recomputed" is false: on an unchanged
entry whose prior record carries `emptyExif` and the zero/unknown
dimension sentinel, neither probe runs and both placeholders are carried
forward verbatim. -/
theorem lazy_backfill_counterexample :
    isNewOrModified cachePlaceholders entryAX = false ∧
    (mapGet cachePlaceholders entryAX.path).bind (fun c => c.exif) = some emptyExif ∧
    Event.exifProbe entryAX.path ∉
      (processOne envConst cachePlaceholders [] entryAX).events ∧
    (processOne envConst cachePlaceholders [] entryAX).record.exif = emptyExif ∧
    Event.dimProbe entryAX.path ∉
      (processOne envConst cachePlaceholders [] entryAX).events ∧
    (processOne envConst cachePlaceholders [] entryAX).record.dimensions = dimFailure := by
  decide

/-- C3 (amended): for an unchanged entry, a derived field is recomputed
fresh exactly when the prior record's field is absent; a present field —
even a placeholder such as the fully-empty EXIF record — is carried
forward verbatim without invoking the probe. -/
theorem lazy_backfill_policy (env : Env) (cache : List CachedRecord)
    (fs : List String) (e : FileEntry) (c : CachedRecord)
    (hm : mapGet cache e.path = some c) (hh : c.hash = e.hash) :
    (c.dimensions = none →
      (processOne env cache fs e).record.dimensions = (env.dims e.path).getD dimFailure ∧
      Event.dimProbe e.path ∈ (processOne env cache fs e).events) ∧
    (∀ d, c.dimensions = some d →
      (processOne env cache fs e).record.dimensions = d ∧
      Event.dimProbe e.path ∉ (processOne env cache fs e).events) ∧
    (c.exif = none →
      (processOne env cache fs e).record.exif = (env.exif e.path).getD emptyExif ∧
      Event.exifProbe e.path ∈ (processOne env cache fs e).events) ∧
    (∀ x, c.exif = some x →
      (processOne env cache fs e).record.exif = x ∧
      Event.exifProbe e.path ∉ (processOne env cache fs e).events) := by
  have hch : isNewOrModified cache e = false := unchanged_of_hit hm hh
  have hev : (processOne env cache fs e).events = eventsOfOne cache fs e := rfl
  refine ⟨?_, ?_, ?_, ?_⟩
  · intro hd
    constructor
    · show dimsValue env cache e = _
      unfold dimsValue
      rw [hch, hm]
      simp [hd]
    · rw [hev, mem_dimProbe_eventsOfOne]
      unfold dimsProbed
      rw [hm]
      simp [hd]
  · intro d hd
    constructor
    · show dimsValue env cache e = _
      unfold dimsValue
      rw [hch, hm]
      simp [hd]
    · rw [hev, mem_dimProbe_eventsOfOne]
      unfold dimsProbed
      rw [hch, hm]
      simp [hd]
  · intro hx
    constructor
    · show exifValue env cache e = _
      unfold exifValue
      rw [hch, hm]
      simp [hx]
    · rw [hev, mem_exifProbe_eventsOfOne]
      unfold exifProbed
      rw [hm]
      simp [hx]
  · intro x hx
    constructor
    · show exifValue env cache e = _
      unfold exifValue
      rw [hch, hm]
      simp [hx]
    · rw [hev, mem_exifProbe_eventsOfOne]
      unfold exifProbed
      rw [hch, hm]
      simp [hx]

/-- Witness for the amended C3 at a concrete unchanged entry. -/
theorem lazy_backfill_policy_witness :
    ((placeholderRecord).dimensions = none →
      (processOne envConst cachePlaceholders [] entryAX).record.dimensions =
        (envConst.dims entryAX.path).getD dimFailure ∧
      Event.dimProbe entryAX.path ∈ (processOne envConst cachePlaceholders [] entryAX).events) ∧
    (∀ d, (placeholderRecord).dimensions = some d →
      (processOne envConst cachePlaceholders [] entryAX).record.dimensions = d ∧
      Event.dimProbe entryAX.path ∉ (processOne envConst cachePlaceholders [] entryAX).events) ∧
    ((placeholderRecord).exif = none →
      (processOne envConst cachePlaceholders [] entryAX).record.exif =
        (envConst.exif entryAX.path).getD emptyExif ∧
      Event.exifProbe entryAX.path ∈ (processOne envConst cachePlaceholders [] entryAX).events) ∧
    (∀ x, (placeholderRecord).exif = some x →
      (processOne envConst cachePlaceholders [] entryAX).record.exif = x ∧
      Event.exifProbe entryAX.path ∉ (processOne envConst cachePlaceholders [] entryAX).events) :=
  lazy_backfill_policy envConst cachePlaceholders [] entryAX
    (placeholderRecord) (by decide) (by decide)

/-! ### Claim C9 -/

/-- First colliding entry: `a.jpg`. -/
def entry9a : FileEntry :=
  { path := "a.jpg", name := "a.jpg", size := 10, modified := 5, hash := "h1" }

/-- Second colliding entry: `a.png`, same stem, different extension. -/
def entry9b : FileEntry :=
  { path := "a.png", name := "a.png", size := 20, modified := 3, hash := "h2" }

/-- Environment for the collision run: both renders succeed with
distinguishable outputs. -/
def env9 : Env :=
  { dims := fun _ => some { width := 800, height := 600, format := "jpeg" }
    exif := fun _ => some emptyExif
    thumb := fun p => if p == "a.jpg" then some { width := 600, height := 400, size := 111 }
                      else some { width := 600, height := 400, size := 222 } }

/-- C9: the source-path-to-thumbnail-path mapping is not injective — the
distinct entries `a.jpg` and `a.png` map to the same thumbnail path, both
emitted records carry the same `thumbnailUrl`, both renders write the same
output file, and the later-processed entry's write is the file's final
content. -/
theorem thumbnail_collision :
    entry9a.path ≠ entry9b.path ∧
    thumbRelOf entry9a.path = thumbRelOf entry9b.path ∧
    (generateMetadata env9 [] [] [entry9a, entry9b]).writes =
      [("a.jpg", "a.jpg"), ("a.jpg", "a.png")] ∧
    lastWriter (generateMetadata env9 [] [] [entry9a, entry9b]).writes "a.jpg" =
      some "a.png" ∧
    ∀ r ∈ (generateMetadata env9 [] [] [entry9a, entry9b]).snapshot.photos,
      r.thumbnailUrl = RAW_BASE ++ "/thumbnails/" ++ "a.jpg" := by
  refine ⟨by decide, by decide, by decide, by decide, fun r hr => ?_⟩
  have hall : ∀ x ∈ (processList env9 [] [] [entry9a, entry9b]).photos,
      x.thumbnailUrl = RAW_BASE ++ "/thumbnails/" ++ "a.jpg" := by decide
  exact hall r (List.mem_mergeSort.mp hr)

/-- A concrete current entry living in category `b`. -/
def entryBY : FileEntry :=
  { path := "b/y.png", name := "y.png", size := 7, modified := 50, hash := "h2" }

/-- A second concrete thumbnail metadata value. -/
def thumbB : ThumbInfo := { width := 600, height := 300, size := 900 }

/-- Cached record matching `entryAX`. -/
def cachedAX : CachedRecord :=
  { path := "a/x.jpg", hash := "h1",
    dimensions := some { width := 800, height := 600, format := "jpeg" },
    exif := some exifCamera, thumbnail := some thumbA }

/-- Cached record matching `entryBY`. -/
def cachedBY : CachedRecord :=
  { path := "b/y.png", hash := "h2",
    dimensions := some { width := 400, height := 400, format := "png" },
    exif := some emptyExif, thumbnail := some thumbB }

/-- Prior snapshot holding both concrete records. -/
def cacheTwo : List CachedRecord := [cachedAX, cachedBY]

/-- Witness for C4: a cached entry with its thumbnail on disk reuses the
cached thumbnail, and in the two-entry self-healing scenario (only
`entryAX`'s thumbnail file missing) exactly that render event fires. -/
theorem thumbnail_policy_witness :
    ((processOne envConst cacheFull ["a/x.jpg"] entryAX).record.thumbnail =
      (mapGet cacheFull entryAX.path).bind (fun c => c.thumbnail)) ∧
    renderEvents (processList envConst cacheTwo ["b/y.jpg"]
        ([] ++ entryAX :: [entryBY])).events =
      [Event.thumbRender entryAX.path (thumbRelOf entryAX.path)] := by
  constructor
  · exact (thumbnail_policy.1 envConst cacheFull ["a/x.jpg"] entryAX).2
      (by decide) (by decide)
  · refine (thumbnail_policy.2 envConst cacheTwo ["b/y.jpg"] [] entryAX [entryBY]
      ?_ (by decide) (by decide)).1
    intro e he
    simp only [List.nil_append, List.mem_cons, List.not_mem_nil, or_false] at he
    rcases he with rfl | rfl
    · exact ⟨cachedAX, by decide, by decide⟩
    · exact ⟨cachedBY, by decide, by decide⟩

/-! ### Aggregator lemmas -/

/-- Category names of a rollup list, in order. -/
def namesOf (m : List CategoryStats) : List String := m.map (fun s => s.name)

/-- Total photo count of a rollup list. -/
def countSum (m : List CategoryStats) : Nat := (m.map (fun s => s.photoCount)).sum

/-- Total byte size of a rollup list. -/
def sizeSum (m : List CategoryStats) : Nat := (m.map (fun s => s.totalSize)).sum

theorem namesOf_cons (s : CategoryStats) (m : List CategoryStats) :
    namesOf (s :: m) = s.name :: namesOf m := rfl

theorem countSum_cons (s : CategoryStats) (m : List CategoryStats) :
    countSum (s :: m) = s.photoCount + countSum m := by
  simp [countSum]

theorem sizeSum_cons (s : CategoryStats) (m : List CategoryStats) :
    sizeSum (s :: m) = s.totalSize + sizeSum m := by
  simp [sizeSum]

/-- Presence test of a category name in the accumulator. -/
theorem any_name_iff (m : List CategoryStats) (c : String) :
    (m.any (fun s => s.name == c) = true) ↔ c ∈ namesOf m := by
  rw [List.any_eq_true]
  constructor
  · rintro ⟨s, hs, hbeq⟩
    exact List.mem_map.mpr ⟨s, hs, by simpa using hbeq⟩
  · intro h
    obtain ⟨s, hs, hname⟩ := List.mem_map.mp h
    exact ⟨s, hs, by simpa using hname⟩

/-- Updating a name that does not occur leaves the accumulator intact. -/
theorem map_update_of_not_mem (c : String) (k : Nat) :
    ∀ (m : List CategoryStats), c ∉ namesOf m →
    m.map (fun s => if s.name == c then
      { s with photoCount := s.photoCount + 1, totalSize := s.totalSize + k }
      else s) = m := by
  intro m
  induction m with
  | nil => intro _; rfl
  | cons s rest ih =>
    intro h
    rw [namesOf_cons, List.mem_cons] at h
    have hs : (s.name == c) = false := by
      rw [beq_eq_false_iff_ne]
      exact fun hh => h (Or.inl hh.symm)
    rw [List.map_cons, hs]
    simp only [Bool.false_eq_true, if_false]
    rw [ih (fun hh => h (Or.inr hh))]

/-- Incrementing the unique entry of a present name adds one photo and
`k` bytes to the rollup sums and keeps the name list unchanged. -/
theorem sums_update (c : String) (k : Nat) :
    ∀ (m : List CategoryStats), (namesOf m).Nodup → c ∈ namesOf m →
    countSum (m.map (fun s => if s.name == c then
        { s with photoCount := s.photoCount + 1, totalSize := s.totalSize + k }
        else s)) = countSum m + 1 ∧
    sizeSum (m.map (fun s => if s.name == c then
        { s with photoCount := s.photoCount + 1, totalSize := s.totalSize + k }
        else s)) = sizeSum m + k ∧
    namesOf (m.map (fun s => if s.name == c then
        { s with photoCount := s.photoCount + 1, totalSize := s.totalSize + k }
        else s)) = namesOf m := by
  intro m
  induction m with
  | nil => intro _ hmem; exact absurd hmem (List.not_mem_nil c)
  | cons s rest ih =>
    intro hnd hmem
    rw [namesOf_cons, List.nodup_cons] at hnd
    by_cases hc : s.name = c
    · have hrest : c ∉ namesOf rest := by rw [← hc]; exact hnd.1
      have hupd := map_update_of_not_mem c k rest hrest
      rw [List.map_cons, if_pos (by simpa using hc), hupd]
      refine ⟨?_, ?_, ?_⟩
      · rw [countSum_cons, countSum_cons]
        show s.photoCount + 1 + countSum rest = s.photoCount + countSum rest + 1
        omega
      · rw [sizeSum_cons, sizeSum_cons]
        show s.totalSize + k + sizeSum rest = s.totalSize + sizeSum rest + k
        omega
      · rw [namesOf_cons, namesOf_cons]
    · have hmem' : c ∈ namesOf rest := by
        rw [namesOf_cons, List.mem_cons] at hmem
        rcases hmem with h | h
        · exact absurd h.symm hc
        · exact h
      obtain ⟨ih1, ih2, ih3⟩ := ih hnd.2 hmem'
      rw [List.map_cons, if_neg (by simpa using hc)]
      refine ⟨?_, ?_, ?_⟩
      · rw [countSum_cons, countSum_cons, ih1]
        omega
      · rw [sizeSum_cons, sizeSum_cons, ih2]
        omega
      · rw [namesOf_cons, namesOf_cons, ih3]

/-- One aggregation step: sums grow by one photo and its size, names stay
duplicate-free, the photo's key is present, and old names persist. -/
theorem addToCats_props (m : List CategoryStats) (p : AssetRecord)
    (hnd : (namesOf m).Nodup) :
    countSum (addToCats m p) = countSum m + 1 ∧
    sizeSum (addToCats m p) = sizeSum m + p.size ∧
    (namesOf (addToCats m p)).Nodup ∧
    effCat p ∈ namesOf (addToCats m p) ∧
    ∀ x ∈ namesOf m, x ∈ namesOf (addToCats m p) := by
  unfold addToCats
  by_cases hany : m.any (fun s => s.name == effCat p) = true
  · rw [if_pos hany]
    have hmem := (any_name_iff m (effCat p)).mp hany
    obtain ⟨h1, h2, h3⟩ := sums_update (effCat p) p.size m hnd hmem
    exact ⟨h1, h2, by rw [h3]; exact hnd, by rw [h3]; exact hmem,
      fun x hx => by rw [h3]; exact hx⟩
  · rw [if_neg hany]
    have hnotmem : effCat p ∉ namesOf m :=
      fun h => hany ((any_name_iff m (effCat p)).mpr h)
    have hnames : namesOf (m ++ [{ name := effCat p, photoCount := 1, totalSize := p.size }]) =
        namesOf m ++ [effCat p] := by
      unfold namesOf
      rw [List.map_append]
      rfl
    refine ⟨?_, ?_, ?_, ?_, ?_⟩
    · unfold countSum
      rw [List.map_append, List.sum_append]
      rfl
    · unfold sizeSum
      rw [List.map_append, List.sum_append]
      rfl
    · rw [hnames, List.nodup_append]
      exact ⟨hnd, List.nodup_singleton _, by simpa using hnotmem⟩
    · rw [hnames]
      exact List.mem_append_right _ (List.mem_singleton.mpr rfl)
    · intro x hx
      rw [hnames]
      exact List.mem_append_left _ hx

/-- Folding the aggregation over a photo list: the rollup sums count every
photo and its bytes exactly once, names stay duplicate-free, every
photo's key appears, and accumulator names persist. -/
theorem foldl_addToCats_props :
    ∀ (photos : List AssetRecord) (acc : List CategoryStats),
      (namesOf acc).Nodup →
      countSum (photos.foldl addToCats acc) = countSum acc + photos.length ∧
      sizeSum (photos.foldl addToCats acc) =
        sizeSum acc + (photos.map (fun p => p.size)).sum ∧
      (namesOf (photos.foldl addToCats acc)).Nodup ∧
      (∀ p ∈ photos, effCat p ∈ namesOf (photos.foldl addToCats acc)) ∧
      (∀ x ∈ namesOf acc, x ∈ namesOf (photos.foldl addToCats acc)) := by
  intro photos
  induction photos with
  | nil =>
    intro acc hnd
    exact ⟨by simp, by simp, hnd, by simp, fun x hx => hx⟩
  | cons p ps ih =>
    intro acc hnd
    obtain ⟨s1, s2, s3, s4, s5⟩ := addToCats_props acc p hnd
    obtain ⟨i1, i2, i3, i4, i5⟩ := ih (addToCats acc p) s3
    simp only [List.foldl_cons]
    refine ⟨?_, ?_, i3, ?_, ?_⟩
    · rw [i1, s1, List.length_cons]
      omega
    · rw [i2, s2, List.map_cons, List.sum_cons]
      omega
    · intro q hq
      rcases List.mem_cons.mp hq with rfl | hq'
      · exact i5 (effCat q) s4
      · exact i4 q hq'
    · exact fun x hx => i5 x (s5 x hx)

/-- Aggregate invariants transported through the final stable sort. -/
theorem computeCategories_props (photos : List AssetRecord) :
    countSum (computeCategories photos) = photos.length ∧
    sizeSum (computeCategories photos) = (photos.map (fun p => p.size)).sum ∧
    (namesOf (computeCategories photos)).Nodup ∧
    ∀ p ∈ photos, effCat p ∈ namesOf (computeCategories photos) := by
  obtain ⟨h1, h2, h3, h4, _⟩ := foldl_addToCats_props photos [] (by simp [namesOf])
  have hperm := List.mergeSort_perm (photos.foldl addToCats [])
    (fun a b => decide (b.photoCount ≤ a.photoCount))
  simp only [countSum, sizeSum, namesOf] at h1 h2 h3 h4
  simp only [computeCategories, countSum, sizeSum, namesOf]
  refine ⟨?_, ?_, ?_, ?_⟩
  · rw [(hperm.map (fun s => s.photoCount)).sum_eq, h1]
    simp
  · rw [(hperm.map (fun s => s.totalSize)).sum_eq, h2]
    simp
  · exact (hperm.map (fun s => s.name)).nodup_iff.mpr h3
  · intro p hp
    exact (hperm.map (fun s => s.name)).mem_iff.mpr (h4 p hp)

/-- A path that does not start with a slash yields a non-empty category. -/
theorem categoryOf_ne_empty {p : String} (h : p.data.head? ≠ some '/') :
    categoryOf p ≠ "" := by
  unfold categoryOf
  by_cases hl : (splitSlash p.data).length > 1
  · rw [if_pos hl, splitSlash_headD]
    have hs : '/' ∈ p.data := (splitSlash_length_gt_one_iff p.data).mp hl
    cases hd : p.data with
    | nil => rw [hd] at hs; exact absurd hs (List.not_mem_nil _)
    | cons c cs =>
      have hc : c ≠ '/' := by
        intro hh
        exact h (by rw [hd, hh]; rfl)
      rw [List.takeWhile_cons, if_pos (by simpa using hc)]
      intro heq
      exact List.noConfusion (congrArg String.data heq)
  · rw [if_neg hl]
    intro heq
    exact List.noConfusion (congrArg String.data heq)

/-- Every emitted record's category comes from some current entry. -/
theorem mem_photos_category (env : Env) (cache : List CachedRecord) :
    ∀ (entries : List FileEntry) (fs : List String) (r : AssetRecord),
      r ∈ (processList env cache fs entries).photos →
      ∃ e ∈ entries, r.category = categoryOf e.path := by
  intro entries
  induction entries with
  | nil => intro fs r hr; exact absurd hr (List.not_mem_nil r)
  | cons e es ih =>
    intro fs r hr
    rw [processList_cons] at hr
    rcases List.mem_cons.mp hr with rfl | hr'
    · exact ⟨e, List.mem_cons_self e es, rfl⟩
    · obtain ⟨e', he', hc⟩ := ih (processOne env cache fs e).fs r hr'
      exact ⟨e', List.mem_cons_of_mem e he', hc⟩

/-- Occurrences of a name among the rollups, as a count over the name list. -/
theorem countP_name_eq (cats : List CategoryStats) (x : String) :
    cats.countP (fun c => c.name == x) = (namesOf cats).count x := by
  unfold namesOf
  rw [List.count, List.countP_map]
  rfl

/-! ### Claim C8 -/

/-- C8: in every output snapshot the categories and totals are recomputed
from the final photo list: category photo counts sum to `totalPhotos`,
category sizes sum to `totalSize`, and — provided no current path starts
with a slash, which the tree walker guarantees — every photo's category
appears exactly once as a name in `categories`. -/
theorem category_totals_consistent (env : Env) (prior : List CachedRecord)
    (fs0 : List String) (entries : List FileEntry)
    (hpaths : ∀ e ∈ entries, e.path.data.head? ≠ some '/') :
    countSum (generateMetadata env prior fs0 entries).snapshot.categories =
      (generateMetadata env prior fs0 entries).snapshot.totalPhotos ∧
    sizeSum (generateMetadata env prior fs0 entries).snapshot.categories =
      (generateMetadata env prior fs0 entries).snapshot.totalSize ∧
    ∀ p ∈ (generateMetadata env prior fs0 entries).snapshot.photos,
      (generateMetadata env prior fs0 entries).snapshot.categories.countP
        (fun c => c.name == p.category) = 1 := by
  unfold generateMetadata
  split
  · refine ⟨by simp [countSum], by simp [sizeSum], ?_⟩
    intro p hp
    exact absurd hp (List.not_mem_nil p)
  · obtain ⟨h1, h2, h3, h4⟩ :=
      computeCategories_props (sortPhotos (processList env prior fs0 entries).photos)
    refine ⟨?_, ?_, ?_⟩
    · show countSum (computeCategories (sortPhotos (processList env prior fs0 entries).photos)) = _
      rw [h1]
    · show sizeSum (computeCategories (sortPhotos (processList env prior fs0 entries).photos)) = _
      rw [h2]
    · intro p hp
      show (computeCategories (sortPhotos (processList env prior fs0 entries).photos)).countP
        (fun c => c.name == p.category) = 1
      have hp' : p ∈ sortPhotos (processList env prior fs0 entries).photos := hp
      have hcat : p.category ≠ "" := by
        have hmem : p ∈ (processList env prior fs0 entries).photos :=
          List.mem_mergeSort.mp hp'
        obtain ⟨e, he, hc⟩ := mem_photos_category env prior entries fs0 p hmem
        rw [hc]
        exact categoryOf_ne_empty (hpaths e he)
      have heff : effCat p = p.category := by
        unfold effCat
        rw [if_neg (by simpa using hcat)]
      have hmemname := h4 p hp'
      rw [heff] at hmemname
      rw [countP_name_eq]
      exact List.count_eq_one_of_mem h3 hmemname

/-- Witness for C8 at a concrete two-entry listing. -/
theorem category_totals_consistent_witness :
    countSum (generateMetadata envConst [] [] [entryAX, entryBY]).snapshot.categories =
      (generateMetadata envConst [] [] [entryAX, entryBY]).snapshot.totalPhotos ∧
    sizeSum (generateMetadata envConst [] [] [entryAX, entryBY]).snapshot.categories =
      (generateMetadata envConst [] [] [entryAX, entryBY]).snapshot.totalSize ∧
    ∀ p ∈ (generateMetadata envConst [] [] [entryAX, entryBY]).snapshot.photos,
      (generateMetadata envConst [] [] [entryAX, entryBY]).snapshot.categories.countP
        (fun c => c.name == p.category) = 1 :=
  category_totals_consistent envConst [] [] [entryAX, entryBY] (by decide)

/-! ### Environment isolation lemmas -/

/-- A step only consults the environment at the entry's own path. -/
theorem processOne_congr_env (env env' : Env) (cache : List CachedRecord)
    (fs : List String) (e : FileEntry)
    (h1 : env'.dims e.path = env.dims e.path)
    (h2 : env'.exif e.path = env.exif e.path)
    (h3 : env'.thumb e.path = env.thumb e.path) :
    processOne env' cache fs e = processOne env cache fs e := by
  unfold processOne dimsValue exifValue thumbValue fsAfterOne writesOfOne
  rw [h1, h2, h3]

/-- The state, event and write components of a step do not depend on the
dimension and EXIF probes at all. -/
theorem processOne_state_thumb_only (env env' : Env) (cache : List CachedRecord)
    (fs : List String) (e : FileEntry)
    (h3 : env'.thumb e.path = env.thumb e.path) :
    (processOne env' cache fs e).fs = (processOne env cache fs e).fs ∧
    (processOne env' cache fs e).events = (processOne env cache fs e).events ∧
    (processOne env' cache fs e).writes = (processOne env cache fs e).writes := by
  refine ⟨?_, rfl, ?_⟩
  · show fsAfterOne env' cache fs e = fsAfterOne env cache fs e
    unfold fsAfterOne
    rw [h3]
  · show writesOfOne env' cache fs e = writesOfOne env cache fs e
    unfold writesOfOne
    rw [h3]

/-- A failure of the dimension or EXIF probe at one path never reaches any
record with a different path: the runs agree everywhere else, including
the directory state and the event log. -/
theorem processList_dimsexif_isolated (env env' : Env) (p : String)
    (hthumb : ∀ q, env'.thumb q = env.thumb q)
    (hdims : ∀ q, q ≠ p → env'.dims q = env.dims q)
    (hexif : ∀ q, q ≠ p → env'.exif q = env.exif q) :
    ∀ (entries : List FileEntry) (cache : List CachedRecord) (fs : List String),
      (processList env' cache fs entries).fs = (processList env cache fs entries).fs ∧
      (processList env' cache fs entries).events = (processList env cache fs entries).events ∧
      List.Forall₂ (fun a b => a.path = b.path ∧ (a.path ≠ p → a = b))
        (processList env cache fs entries).photos
        (processList env' cache fs entries).photos := by
  intro entries
  induction entries with
  | nil => intro cache fs; exact ⟨rfl, rfl, List.Forall₂.nil⟩
  | cons e es ih =>
    intro cache fs
    obtain ⟨hfs, hev, hw⟩ :=
      processOne_state_thumb_only env env' cache fs e (hthumb e.path)
    by_cases hep : e.path = p
    · obtain ⟨ifs, iev, iph⟩ := ih cache (processOne env cache fs e).fs
      rw [processList_cons, processList_cons, hfs]
      refine ⟨ifs, by rw [hev, iev], ?_⟩
      refine List.Forall₂.cons ⟨rfl, fun hne => absurd hep hne⟩ iph
    · have heq : processOne env' cache fs e = processOne env cache fs e :=
        processOne_congr_env env env' cache fs e
          (hdims e.path hep) (hexif e.path hep) (hthumb e.path)
      obtain ⟨ifs, iev, iph⟩ := ih cache (processOne env cache fs e).fs
      rw [processList_cons, processList_cons, heq]
      exact ⟨ifs, by rw [iev], List.Forall₂.cons ⟨rfl, fun _ => rfl⟩ iph⟩

/-- Membership in the directory after one step. -/
theorem mem_fsAfterOne (env : Env) (cache : List CachedRecord) (fs : List String)
    (e : FileEntry) (x : String) :
    x ∈ fsAfterOne env cache fs e ↔
      (x = thumbRelOf e.path ∧ needThumb cache fs e = true ∧
        (env.thumb e.path).isSome = true) ∨ x ∈ fs := by
  unfold fsAfterOne
  by_cases hnt : needThumb cache fs e = true
  · rw [if_pos hnt]
    cases ht : env.thumb e.path with
    | none => simp [ht, hnt]
    | some t => simp [ht, hnt, List.mem_insert_iff]
  · rw [if_neg hnt]
    simp [hnt]

/-- A thumbnail render outcome at one path never reaches any record with
a different path, provided no other entry maps to the same thumbnail
output file: the two runs' directories agree off that file and all other
records coincide. -/
theorem processList_thumb_isolated (env env' : Env) (p : String)
    (hdims : ∀ q, env'.dims q = env.dims q)
    (hexif : ∀ q, env'.exif q = env.exif q)
    (hthumb : ∀ q, q ≠ p → env'.thumb q = env.thumb q) :
    ∀ (entries : List FileEntry) (cache : List CachedRecord)
      (fsA fsB : List String),
      (∀ e ∈ entries, e.path ≠ p → thumbRelOf e.path ≠ thumbRelOf p) →
      (∀ x, x ≠ thumbRelOf p → (x ∈ fsA ↔ x ∈ fsB)) →
      (∀ x, x ≠ thumbRelOf p →
        (x ∈ (processList env cache fsA entries).fs ↔
          x ∈ (processList env' cache fsB entries).fs)) ∧
      List.Forall₂ (fun a b => a.path = b.path ∧ (a.path ≠ p → a = b))
        (processList env cache fsA entries).photos
        (processList env' cache fsB entries).photos := by
  intro entries
  induction entries with
  | nil =>
    intro cache fsA fsB _ hR
    exact ⟨hR, List.Forall₂.nil⟩
  | cons e es ih =>
    intro cache fsA fsB hcoll hR
    by_cases hep : e.path = p
    · -- the affected entry: both runs may differ here, but only at the
      -- shared thumbnail file
      have hstep : ∀ x, x ≠ thumbRelOf p →
          (x ∈ (processOne env cache fsA e).fs ↔ x ∈ (processOne env' cache fsB e).fs) := by
        intro x hx
        have hxe : x ≠ thumbRelOf e.path := by rw [hep]; exact hx
        rw [show (processOne env cache fsA e).fs = fsAfterOne env cache fsA e from rfl,
          show (processOne env' cache fsB e).fs = fsAfterOne env' cache fsB e from rfl,
          mem_fsAfterOne, mem_fsAfterOne]
        constructor
        · rintro (⟨hc, _⟩ | hm)
          · exact absurd hc hxe
          · exact Or.inr ((hR x hx).mp hm)
        · rintro (⟨hc, _⟩ | hm)
          · exact absurd hc hxe
          · exact Or.inr ((hR x hx).mpr hm)
      obtain ⟨ifs, iph⟩ := ih cache (processOne env cache fsA e).fs
        (processOne env' cache fsB e).fs
        (fun e' he' => hcoll e' (List.mem_cons_of_mem e he')) hstep
      rw [processList_cons, processList_cons]
      refine ⟨ifs, List.Forall₂.cons ⟨rfl, fun hne => absurd hep hne⟩ iph⟩
    · -- an unaffected entry: both runs take identical steps
      have hte : thumbRelOf e.path ≠ thumbRelOf p :=
        hcoll e (List.mem_cons_self e es) hep
      have hcont : fsA.contains (thumbRelOf e.path) = fsB.contains (thumbRelOf e.path) := by
        rw [Bool.eq_iff_iff, contains_iff_mem, contains_iff_mem]
        exact hR (thumbRelOf e.path) hte
      have hnt : needThumb cache fsA e = needThumb cache fsB e := by
        unfold needThumb
        rw [hcont]
      have hrec : (processOne env cache fsA e).record =
          (processOne env' cache fsB e).record := by
        unfold processOne dimsValue exifValue thumbValue
        rw [hdims e.path, hexif e.path, hthumb e.path hep, hnt]
      have hstep : ∀ x, x ≠ thumbRelOf p →
          (x ∈ (processOne env cache fsA e).fs ↔ x ∈ (processOne env' cache fsB e).fs) := by
        intro x hx
        rw [show (processOne env cache fsA e).fs = fsAfterOne env cache fsA e from rfl,
          show (processOne env' cache fsB e).fs = fsAfterOne env' cache fsB e from rfl,
          mem_fsAfterOne, mem_fsAfterOne, hnt, hthumb e.path hep]
        constructor
        · rintro (hc | hm)
          · exact Or.inl hc
          · exact Or.inr ((hR x hx).mp hm)
        · rintro (hc | hm)
          · exact Or.inl hc
          · exact Or.inr ((hR x hx).mpr hm)
      obtain ⟨ifs, iph⟩ := ih cache (processOne env cache fsA e).fs
        (processOne env' cache fsB e).fs
        (fun e' he' => hcoll e' (List.mem_cons_of_mem e he')) hstep
      rw [processList_cons, processList_cons]
      refine ⟨ifs, List.Forall₂.cons ?_ iph⟩
      rw [hrec]
      exact ⟨rfl, fun _ => rfl⟩

/-! ### Claim C5 -/

/-- A third concrete thumbnail metadata value. -/
def thumbC : ThumbInfo := { width := 600, height := 400, size := 333 }

/-- Prior snapshot for the isolation counterexample: only `a.png` cached. -/
def cacheC5 : List CachedRecord :=
  [{ path := "a.png", hash := "h2",
     dimensions := some { width := 400, height := 400, format := "png" },
     exif := some emptyExif, thumbnail := some thumbB }]

/-- Environment where every render succeeds. -/
def envT1 : Env :=
  { dims := fun _ => some { width := 800, height := 600, format := "jpeg" }
    exif := fun _ => some emptyExif
    thumb := fun q => if q == "a.jpg" then some thumbA else some thumbC }

/-- Same environment except the render of `a.jpg` fails. -/
def envT2 : Env :=
  { dims := envT1.dims
    exif := envT1.exif
    thumb := fun q => if q == "a.jpg" then none else envT1.thumb q }

/-- C5 (counterexample): the claim "a failed probe never alters any
sibling item's fields" is false when two entries share a thumbnail output
file: failing only `a.jpg`'s render (all else equal) changes the sibling
`a.png` record's thumbnail, because the sibling's self-healing check then
finds the shared file missing and re-renders. -/
theorem failure_isolation_counterexample :
    envT1.thumb entry9a.path = some thumbA ∧
    envT2.thumb entry9a.path = none ∧
    envT2.thumb entry9b.path = envT1.thumb entry9b.path ∧
    envT2.dims = envT1.dims ∧
    envT2.exif = envT1.exif ∧
    ((processList envT1 cacheC5 [] [entry9a, entry9b]).photos[1]?).map
      (fun r => r.thumbnail) = some (some thumbB) ∧
    ((processList envT2 cacheC5 [] [entry9a, entry9b]).photos[1]?).map
      (fun r => r.thumbnail) = some (some thumbC) ∧
    thumbB ≠ thumbC := by
  exact ⟨by decide, by decide, by decide, rfl, rfl, by decide, by decide, by decide⟩

/-- C5 (amended): a failed probe degrades only that field of that item to
its documented sentinel (zero/unknown dimensions, fully-absent EXIF,
absent thumbnail); the batch never aborts (one record per entry, whatever
the environment); a dimension/EXIF probe outcome at one path never
alters any other record, the directory state or the event log; and a
thumbnail render outcome at one path never alters any record with a
different path provided no other entry maps to the same thumbnail output
file. -/
theorem failure_isolation :
    (∀ (env : Env) (cache : List CachedRecord) (fs : List String) (e : FileEntry),
      (dimsProbed cache e = true → env.dims e.path = none →
        (processOne env cache fs e).record.dimensions = dimFailure) ∧
      (exifProbed cache e = true → env.exif e.path = none →
        (processOne env cache fs e).record.exif = emptyExif) ∧
      (needThumb cache fs e = true → env.thumb e.path = none →
        (processOne env cache fs e).record.thumbnail = none)) ∧
    (∀ (env : Env) (cache : List CachedRecord) (fs : List String)
      (entries : List FileEntry),
      (processList env cache fs entries).photos.length = entries.length) ∧
    (∀ (env env' : Env) (p : String),
      (∀ q, env'.thumb q = env.thumb q) →
      (∀ q, q ≠ p → env'.dims q = env.dims q) →
      (∀ q, q ≠ p → env'.exif q = env.exif q) →
      ∀ (entries : List FileEntry) (cache : List CachedRecord) (fs : List String),
        (processList env' cache fs entries).fs = (processList env cache fs entries).fs ∧
        (processList env' cache fs entries).events = (processList env cache fs entries).events ∧
        List.Forall₂ (fun a b => a.path = b.path ∧ (a.path ≠ p → a = b))
          (processList env cache fs entries).photos
          (processList env' cache fs entries).photos) ∧
    (∀ (env env' : Env) (p : String),
      (∀ q, env'.dims q = env.dims q) →
      (∀ q, env'.exif q = env.exif q) →
      (∀ q, q ≠ p → env'.thumb q = env.thumb q) →
      ∀ (entries : List FileEntry) (cache : List CachedRecord) (fs : List String),
        (∀ e ∈ entries, e.path ≠ p → thumbRelOf e.path ≠ thumbRelOf p) →
        List.Forall₂ (fun a b => a.path = b.path ∧ (a.path ≠ p → a = b))
          (processList env cache fs entries).photos
          (processList env' cache fs entries).photos) := by
  refine ⟨?_, ?_, ?_, ?_⟩
  · intro env cache fs e
    refine ⟨?_, ?_, ?_⟩
    · intro hp hnone
      show dimsValue env cache e = dimFailure
      unfold dimsValue
      by_cases hch : isNewOrModified cache e = true
      · rw [if_pos hch, hnone]
        rfl
      · unfold dimsProbed at hp
        rw [Bool.or_eq_true] at hp
        rcases hp with hp | hp
        · exact absurd hp hch
        · rw [if_neg hch, Option.isNone_iff_eq_none.mp hp, hnone]
          rfl
    · intro hp hnone
      show exifValue env cache e = emptyExif
      unfold exifValue
      by_cases hch : isNewOrModified cache e = true
      · rw [if_pos hch, hnone]
        rfl
      · unfold exifProbed at hp
        rw [Bool.or_eq_true] at hp
        rcases hp with hp | hp
        · exact absurd hp hch
        · rw [if_neg hch, Option.isNone_iff_eq_none.mp hp, hnone]
          rfl
    · intro hp hnone
      show thumbValue env cache fs e = none
      unfold thumbValue
      rw [if_pos hp, hnone]
  · exact fun env cache fs entries => length_processList_photos env cache entries fs
  · intro env env' p hthumb hdims hexif entries cache fs
    exact processList_dimsexif_isolated env env' p hthumb hdims hexif entries cache fs
  · intro env env' p hdims hexif hthumb entries cache fs hcoll
    exact (processList_thumb_isolated env env' p hdims hexif hthumb entries cache fs fs
      hcoll (fun x _ => Iff.rfl)).2

/-- Environment failing the dimension and EXIF probes everywhere. -/
def envFail : Env :=
  { dims := fun _ => none, exif := fun _ => none, thumb := fun _ => none }

/-- Environment agreeing with `envConst` except the dimension probe fails
at `a/x.jpg`. -/
def envD : Env :=
  { dims := fun q => if q == "a/x.jpg" then none else envConst.dims q
    exif := envConst.exif
    thumb := envConst.thumb }

/-- Environment agreeing with `envConst` except the thumbnail render
fails at `a/x.jpg`. -/
def envT3 : Env :=
  { dims := envConst.dims
    exif := envConst.exif
    thumb := fun q => if q == "a/x.jpg" then none else envConst.thumb q }

/-- Witness for the amended C5 at concrete inputs. -/
theorem failure_isolation_witness :
    ((processOne envFail [] [] entryAX).record.dimensions = dimFailure ∧
      (processOne envFail [] [] entryAX).record.exif = emptyExif ∧
      (processOne envFail [] [] entryAX).record.thumbnail = none) ∧
    (processList envConst [] [] [entryAX, entryBY]).photos.length = 2 ∧
    List.Forall₂ (fun a b => a.path = b.path ∧ (a.path ≠ "a/x.jpg" → a = b))
      (processList envConst cacheTwo [] [entryAX, entryBY]).photos
      (processList envD cacheTwo [] [entryAX, entryBY]).photos ∧
    List.Forall₂ (fun a b => a.path = b.path ∧ (a.path ≠ "a/x.jpg" → a = b))
      (processList envConst cacheTwo [] [entryAX, entryBY]).photos
      (processList envT3 cacheTwo [] [entryAX, entryBY]).photos := by
  refine ⟨?_, ?_, ?_, ?_⟩
  · obtain ⟨h1, h2, h3⟩ := failure_isolation.1 envFail [] [] entryAX
    exact ⟨h1 (by decide) rfl, h2 (by decide) rfl, h3 (by decide) rfl⟩
  · exact failure_isolation.2.1 envConst [] [] [entryAX, entryBY]
  · exact (failure_isolation.2.2.1 envConst envD "a/x.jpg"
      (fun q => rfl)
      (fun q hq => by show (if (q == "a/x.jpg") then none else envConst.dims q) = envConst.dims q; simp [hq])
      (fun q _ => rfl)
      [entryAX, entryBY] cacheTwo []).2.2
  · exact failure_isolation.2.2.2 envConst envT3 "a/x.jpg"
      (fun q => rfl) (fun q => rfl)
      (fun q hq => by show (if (q == "a/x.jpg") then none else envConst.thumb q) = envConst.thumb q; simp [hq])
      [entryAX, entryBY] cacheTwo [] (by decide)

/-! ### Second-run replay lemmas -/

/-- Replaying one step against the snapshot the first run just produced:
the record is reproduced identically, the directory only grows, at most a
thumbnail render fires, and nothing at all happens when the thumbnail
file is on disk. -/
theorem replay_one (env : Env) (cacheA cacheB : List CachedRecord)
    (fsA fsB : List String) (e : FileEntry)
    (hB : mapGet cacheB e.path =
      some (cachedOfRecord (processOne env cacheA fsA e).record))
    (hsub : (processOne env cacheA fsA e).fs ⊆ fsB) :
    (processOne env cacheB fsB e).record = (processOne env cacheA fsA e).record ∧
    fsB ⊆ (processOne env cacheB fsB e).fs ∧
    ((processOne env cacheB fsB e).events = [] ∨
      (processOne env cacheB fsB e).events =
        [Event.thumbRender e.path (thumbRelOf e.path)]) ∧
    (thumbRelOf e.path ∈ fsB →
      (processOne env cacheB fsB e).events = [] ∧
      (processOne env cacheB fsB e).fs = fsB) := by
  have hchB : isNewOrModified cacheB e = false := unchanged_of_hit hB rfl
  have hdimsB : dimsValue env cacheB e = (processOne env cacheA fsA e).record.dimensions := by
    unfold dimsValue
    rw [hchB, hB]
    rfl
  have hexifB : exifValue env cacheB e = (processOne env cacheA fsA e).record.exif := by
    unfold exifValue
    rw [hchB, hB]
    rfl
  have hdimsP : dimsProbed cacheB e = false := by
    unfold dimsProbed
    rw [hchB, hB]
    rfl
  have hexifP : exifProbed cacheB e = false := by
    unfold exifProbed
    rw [hchB, hB]
    rfl
  by_cases hmem : thumbRelOf e.path ∈ fsB
  · -- thumbnail present: quiet step
    have hcont : fsB.contains (thumbRelOf e.path) = true :=
      (contains_iff_mem _ _).mpr hmem
    have hnt : needThumb cacheB fsB e = false := by
      unfold needThumb
      rw [hchB, hcont]
      rfl
    have hthumbB : thumbValue env cacheB fsB e =
        (processOne env cacheA fsA e).record.thumbnail := by
      unfold thumbValue
      rw [hnt, hB]
      rfl
    have hev : eventsOfOne cacheB fsB e = [] := by
      unfold eventsOfOne
      rw [hdimsP, hexifP, hnt]
      rfl
    have hfs : fsAfterOne env cacheB fsB e = fsB := by
      unfold fsAfterOne
      rw [hnt]
      rfl
    refine ⟨?_, ?_, Or.inl hev, fun _ => ⟨hev, hfs⟩⟩
    · apply AssetRecord.ext <;>
        first
          | rfl
          | exact hdimsB
          | exact hexifB
          | exact hthumbB
    · rw [show (processOne env cacheB fsB e).fs = fsAfterOne env cacheB fsB e from rfl, hfs]
      exact fun x hx => hx
  · -- thumbnail absent in the second run: the first run's render failed
    have hmemA : thumbRelOf e.path ∉ (processOne env cacheA fsA e).fs :=
      fun h => hmem (hsub h)
    have hntA : needThumb cacheA fsA e = true := by
      by_contra hcon
      rw [Bool.not_eq_true] at hcon
      have hcont : fsA.contains (thumbRelOf e.path) = true := by
        unfold needThumb at hcon
        rcases Bool.or_eq_false_iff.mp hcon with ⟨_, h2⟩
        rwa [Bool.not_eq_false'] at h2
      exact hmemA (subset_fsAfterOne env cacheA fsA e ((contains_iff_mem _ _).mp hcont))
    have hfailA : env.thumb e.path = none := by
      cases ht : env.thumb e.path with
      | none => rfl
      | some t =>
        exfalso
        apply hmemA
        show thumbRelOf e.path ∈ fsAfterOne env cacheA fsA e
        unfold fsAfterOne
        rw [if_pos hntA, ht]
        exact List.mem_insert_iff.mpr (Or.inl rfl)
    have hthumbA : (processOne env cacheA fsA e).record.thumbnail = none := by
      show thumbValue env cacheA fsA e = none
      unfold thumbValue
      rw [if_pos hntA, hfailA]
    have hcont : fsB.contains (thumbRelOf e.path) = false := by
      rw [← Bool.not_eq_true, contains_iff_mem]
      exact hmem
    have hntB : needThumb cacheB fsB e = true := by
      unfold needThumb
      rw [hchB, hcont]
      rfl
    have hthumbB : thumbValue env cacheB fsB e =
        (processOne env cacheA fsA e).record.thumbnail := by
      unfold thumbValue
      rw [if_pos hntB, hfailA, hthumbA]
    have hev : eventsOfOne cacheB fsB e =
        [Event.thumbRender e.path (thumbRelOf e.path)] := by
      unfold eventsOfOne
      rw [hdimsP, hexifP, hntB]
      rfl
    have hfs : fsAfterOne env cacheB fsB e = fsB := by
      unfold fsAfterOne
      rw [if_pos hntB, hfailA]
    refine ⟨?_, ?_, Or.inr hev, fun hx => absurd hx hmem⟩
    · apply AssetRecord.ext <;>
        first
          | rfl
          | exact hdimsB
          | exact hexifB
          | exact hthumbB
    · rw [show (processOne env cacheB fsB e).fs = fsAfterOne env cacheB fsB e from rfl, hfs]
      exact fun x hx => hx

/-- Replaying a whole run against the snapshot the first run produced:
the photo list is reproduced identically, the directory only grows, every
event is a thumbnail render, and no event at all fires when every entry's
thumbnail file survived the first run. -/
theorem replay_list (env : Env) (cacheA : List CachedRecord) :
    ∀ (entries : List FileEntry) (fsA fsB : List String) (cacheB : List CachedRecord),
      List.Forall₂ (fun e r => mapGet cacheB e.path = some (cachedOfRecord r))
        entries (processList env cacheA fsA entries).photos →
      (processList env cacheA fsA entries).fs ⊆ fsB →
      (processList env cacheB fsB entries).photos =
        (processList env cacheA fsA entries).photos ∧
      fsB ⊆ (processList env cacheB fsB entries).fs ∧
      (∀ ev ∈ (processList env cacheB fsB entries).events,
        ∃ src dst, ev = Event.thumbRender src dst) ∧
      ((∀ e ∈ entries, thumbRelOf e.path ∈ fsB) →
        (processList env cacheB fsB entries).events = [] ∧
        (processList env cacheB fsB entries).fs = fsB) := by
  intro entries
  induction entries with
  | nil =>
    intro fsA fsB cacheB _ _
    exact ⟨rfl, fun x hx => hx, fun ev hev => absurd hev (List.not_mem_nil ev),
      fun _ => ⟨rfl, rfl⟩⟩
  | cons e es ih =>
    intro fsA fsB cacheB hF hsub
    rw [processList_cons] at hF
    cases hF with
    | cons hB hFtail =>
      have hsubA : (processOne env cacheA fsA e).fs ⊆ fsB :=
        (subset_fs_processList env cacheA es (processOne env cacheA fsA e).fs).trans hsub
      obtain ⟨hrec, hfsB, hevd, hquiet⟩ :=
        replay_one env cacheA cacheB fsA fsB e hB hsubA
      have hsubTail : (processList env cacheA (processOne env cacheA fsA e).fs es).fs ⊆
          (processOne env cacheB fsB e).fs := hsub.trans hfsB
      obtain ⟨iphotos, ifs, ievd, iquiet⟩ :=
        ih (processOne env cacheA fsA e).fs (processOne env cacheB fsB e).fs cacheB
          hFtail hsubTail
      rw [processList_cons, processList_cons]
      refine ⟨?_, ?_, ?_, ?_⟩
      · show (processOne env cacheB fsB e).record :: _ = (processOne env cacheA fsA e).record :: _
        rw [hrec, iphotos]
      · exact hfsB.trans ifs
      · intro ev hev
        rcases List.mem_append.mp hev with hh | ht
        · rcases hevd with hnil | hone
          · rw [hnil] at hh
            exact absurd hh (List.not_mem_nil ev)
          · rw [hone] at hh
            rcases List.mem_singleton.mp hh with rfl
            exact ⟨e.path, thumbRelOf e.path, rfl⟩
        · exact ievd ev ht
      · intro hall
        obtain ⟨hev0, hfs0⟩ := hquiet (hall e (List.mem_cons_self e es))
        have htail := iquiet (by
          intro e' he'
          rw [hfs0]
          exact hall e' (List.mem_cons_of_mem e he'))
        refine ⟨?_, ?_⟩
        · rw [hev0, htail.1]
          rfl
        · rw [htail.2, hfs0]

/-- The records of a run are path-aligned members of its photo list. -/
theorem forall₂_path_mem (env : Env) (cache : List CachedRecord) :
    ∀ (entries : List FileEntry) (fs : List String),
      List.Forall₂ (fun e r => r.path = e.path ∧
          r ∈ (processList env cache fs entries).photos)
        entries (processList env cache fs entries).photos := by
  intro entries
  induction entries with
  | nil => intro fs; exact List.Forall₂.nil
  | cons e es ih =>
    intro fs
    rw [processList_cons]
    refine List.Forall₂.cons ⟨rfl, List.mem_cons_self _ _⟩ ?_
    exact (ih (processOne env cache fs e).fs).imp
      (fun a b hab => ⟨hab.1, List.mem_cons_of_mem _ hab.2⟩)

/-- A search hitting a unique satisfying element finds exactly it. -/
theorem find?_eq_of_unique {α : Type} (pred : α → Bool) :
    ∀ (l : List α) (a : α), a ∈ l → pred a = true →
      (∀ b ∈ l, pred b = true → b = a) → l.find? pred = some a := by
  intro l
  induction l with
  | nil => intro a ha; exact absurd ha (List.not_mem_nil a)
  | cons x xs ih =>
    intro a ha hpa huniq
    by_cases hx : pred x = true
    · rw [List.find?_cons_of_pos _ hx]
      rw [huniq x (List.mem_cons_self x xs) hx]
    · rw [List.find?_cons_of_neg _ hx]
      have hax : a ≠ x := fun h => hx (h ▸ hpa)
      have ha' : a ∈ xs := by
        rcases List.mem_cons.mp ha with h | h
        · exact absurd h hax
        · exact h
      exact ih a ha' hpa (fun b hb => huniq b (List.mem_cons_of_mem x hb))

/-- With duplicate-free paths, the snapshot map resolves each emitted
record's path back to exactly that record. -/
theorem mapGet_cachedOf (l : List AssetRecord)
    (hnd : (l.map (fun r => r.path)).Nodup)
    (r : AssetRecord) (hr : r ∈ l) :
    mapGet (l.map cachedOfRecord) r.path = some (cachedOfRecord r) := by
  unfold mapGet
  apply find?_eq_of_unique
  · rw [List.mem_reverse]
    exact List.mem_map_of_mem cachedOfRecord hr
  · simp [cachedOfRecord]
  · intro b hb hpred
    rw [List.mem_reverse] at hb
    obtain ⟨r', hr', rfl⟩ := List.mem_map.mp hb
    have hpath : r'.path = r.path := by simpa [cachedOfRecord] using hpred
    rw [List.inj_on_of_nodup_map hnd hr' hr hpath]

/-- Alignment of the second run's cache lookups with the first run's
records, through the sort. -/
theorem forall₂_lookup (env : Env) (cacheA : List CachedRecord)
    (entries : List FileEntry) (fsA : List String)
    (hnd : (entries.map (fun e => e.path)).Nodup) :
    List.Forall₂ (fun e r =>
        mapGet ((sortPhotos (processList env cacheA fsA entries).photos).map
          cachedOfRecord) e.path = some (cachedOfRecord r))
      entries (processList env cacheA fsA entries).photos := by
  have hpaths := map_path_processList env cacheA entries fsA
  have hperm := List.mergeSort_perm (processList env cacheA fsA entries).photos
    (fun a b => decide (b.modified ≤ a.modified))
  have hndph : ((sortPhotos (processList env cacheA fsA entries).photos).map
      (fun r => r.path)).Nodup := by
    refine ((hperm.map (fun r => r.path)).nodup_iff).mpr ?_
    rw [hpaths]
    exact hnd
  refine (forall₂_path_mem env cacheA entries fsA).imp ?_
  rintro e r ⟨hpath, hmem⟩
  rw [← hpath]
  exact mapGet_cachedOf _ hndph r (hperm.mem_iff.mpr hmem)

/-! ### Claim C2 -/

/-- C2 (counterexample): the claim "the second run invokes zero probes"
is false: when a first-run thumbnail render fails (here the environment
fails every probe), the thumbnail file is still missing on the second
run, so the second run re-invokes the renderer. -/
theorem second_run_counterexample :
    (generateMetadata envFail
        ((generateMetadata envFail [] [] [entryAX]).snapshot.photos.map cachedOfRecord)
        (generateMetadata envFail [] [] [entryAX]).fs [entryAX]).events ≠ [] := by
  have h1 : (generateMetadata envFail [] [] [entryAX]).snapshot.photos =
      sortPhotos (processList envFail [] [] [entryAX]).photos := rfl
  have h2 : sortPhotos (processList envFail [] [] [entryAX]).photos =
      (processList envFail [] [] [entryAX]).photos := by
    show List.mergeSort [(processOne envFail [] [] entryAX).record] _ = _
    exact List.mergeSort_singleton _
  rw [h1, h2]
  decide

/-- C2 (amended): for a fixed file tree (duplicate-free paths), running
the pipeline twice with no filesystem change in between yields an
identical snapshot (photos, categories and totals; only the generation
timestamp, which the model omits, may differ); the second run invokes no
dimension probe and no EXIF extraction — every second-run event, if any,
is a thumbnail render — and invokes nothing at all provided every entry's
thumbnail file is on disk after the first run, which holds whenever every
first-run render succeeded. -/
theorem second_run_idempotent (env : Env) (prior : List CachedRecord)
    (fs0 : List String) (entries : List FileEntry)
    (hnd : (entries.map (fun e => e.path)).Nodup) :
    (generateMetadata env
        ((generateMetadata env prior fs0 entries).snapshot.photos.map cachedOfRecord)
        (generateMetadata env prior fs0 entries).fs entries).snapshot =
      (generateMetadata env prior fs0 entries).snapshot ∧
    (∀ ev ∈ (generateMetadata env
        ((generateMetadata env prior fs0 entries).snapshot.photos.map cachedOfRecord)
        (generateMetadata env prior fs0 entries).fs entries).events,
      ∃ src dst, ev = Event.thumbRender src dst) ∧
    ((∀ e ∈ entries, thumbRelOf e.path ∈ (generateMetadata env prior fs0 entries).fs) →
      (generateMetadata env
        ((generateMetadata env prior fs0 entries).snapshot.photos.map cachedOfRecord)
        (generateMetadata env prior fs0 entries).fs entries).events = []) := by
  cases entries with
  | nil =>
    exact ⟨rfl, fun ev hev => absurd hev (List.not_mem_nil ev), fun _ => rfl⟩
  | cons a as =>
    have hF := forall₂_lookup env prior (a :: as) fs0 hnd
    have hrep := replay_list env prior (a :: as) fs0
      (processList env prior fs0 (a :: as)).fs
      ((sortPhotos (processList env prior fs0 (a :: as)).photos).map cachedOfRecord)
      hF (fun x hx => hx)
    obtain ⟨hph, _, hevd, hquiet⟩ := hrep
    unfold generateMetadata
    simp only [List.isEmpty_cons, if_neg Bool.false_ne_true]
    refine ⟨?_, ?_, ?_⟩
    · show ({ totalPhotos := _, totalSize := _, categories := _, photos := _ } : Snapshot) = _
      rw [hph]
    · intro ev hev
      exact hevd ev hev
    · intro hall
      exact (hquiet hall).1

/-- Witness for the amended C2 at a concrete two-entry tree where every
probe succeeds, checking that the second run is silent. -/
theorem second_run_idempotent_witness :
    (generateMetadata envConst
        ((generateMetadata envConst [] [] [entryAX, entryBY]).snapshot.photos.map
          cachedOfRecord)
        (generateMetadata envConst [] [] [entryAX, entryBY]).fs
        [entryAX, entryBY]).snapshot =
      (generateMetadata envConst [] [] [entryAX, entryBY]).snapshot ∧
    (generateMetadata envConst
        ((generateMetadata envConst [] [] [entryAX, entryBY]).snapshot.photos.map
          cachedOfRecord)
        (generateMetadata envConst [] [] [entryAX, entryBY]).fs
        [entryAX, entryBY]).events = [] := by
  obtain ⟨hsnap, _, hquiet⟩ :=
    second_run_idempotent envConst [] [] [entryAX, entryBY] (by decide)
  refine ⟨hsnap, hquiet ?_⟩
  intro e he
  have hfs : (generateMetadata envConst [] [] [entryAX, entryBY]).fs =
      ["b/y.jpg", "a/x.jpg"] := by decide
  rw [hfs]
  rcases List.mem_cons.mp he with rfl | he'
  · decide
  · rcases List.mem_cons.mp he' with rfl | he''
    · decide
    · exact absurd he'' (List.not_mem_nil e)

end PhotosMeta
